import Mathlib

/-!
Verification of the allergy-conflict resolution engine of the
MedicalAssistant repository, as a shallow embedding in Lean 4.

The embedding mirrors, definition by definition:
  * `allergy_checker.py` — `AllergyChecker.check_direct_allergies` and
    `AllergyChecker._check_cross_sensitivity`;
  * `main.py` — the per-medicine loop of `check_prescription` (drug
    resolution, not-found suggestions, conflict classification with
    deduplication, oracle branch, `is_safe`) and the post-OCR handoff of
    `upload_prescription`;
  * `ai_agent.py` / `groq_client.py` — the failure handling of
    `analyze_cross_reactivity`.

Database queries are modelled by an interface of fallible query functions
(`FDb`); a SQLAlchemy exception is an `Except.error` outcome.  The pure
instantiation `FDb.ofDb` evaluates the queries against an in-memory table
state `Db` with the `ilike` matching semantics of the source.
-/

/-! ## String helpers mirroring Python primitives -/

/-- single-quote character (ASCII 39). -/
def sqc : Char := Char.ofNat 39

/-- double-quote character (ASCII 34). -/
def dqc : Char := Char.ofNat 34

/-- single-quote as a string. -/
def sqS : String := ⟨[sqc]⟩

/-- Strip all leading and trailing occurrences of a character,
like Python `str.strip(c)`. -/
def stripChar (c : Char) (s : String) : String :=
  ⟨((s.data.dropWhile (· == c)).reverse.dropWhile (· == c)).reverse⟩

/-- Python `str.strip()`: whitespace off both ends. -/
def pyTrim (s : String) : String :=
  ⟨((s.data.dropWhile Char.isWhitespace).reverse.dropWhile Char.isWhitespace).reverse⟩

/-- `medicine_name.strip().strip(DOUBLEQUOTE).strip(QUOTE)` from
`main.py` (check_prescription). -/
def cleanName (name : String) : String :=
  stripChar sqc (stripChar dqc (pyTrim name))

/-- character count, Python `len`. -/
def strLen (s : String) : Nat := s.data.length

/-- Python `s[:n]`. -/
def strTake (s : String) (n : Nat) : String := ⟨s.data.take n⟩

/-- Python `str.lower`, ASCII case folding. -/
def lowerStr (s : String) : String := ⟨s.data.map Char.toLower⟩

/-- Bool test: `p` starts `l`. -/
def isPfxB (p l : List Char) : Bool :=
  match p, l with
  | [], _ => true
  | _ :: _, [] => false
  | a :: as, b :: bs => a == b && isPfxB as bs

/-- Bool test: `p` occurs inside `l`. -/
def isInfB (p : List Char) : List Char → Bool
  | [] => isPfxB p []
  | b :: t => isPfxB p (b :: t) || isInfB p t

/-- SQL `column ILIKE PCT pat PCT`: case-insensitive substring match. -/
def ciHas (hay pat : String) : Bool :=
  isInfB (lowerStr pat).data (lowerStr hay).data

/-- `ilike` on a nullable column: NULL never matches. -/
def ciHasOpt (hay : Option String) (pat : String) : Bool :=
  match hay with
  | some h => ciHas h pat
  | none => false

/-- SQL `column ILIKE pat PCT`: case-insensitive starts-with match. -/
def ciStarts (hay pat : String) : Bool :=
  isPfxB (lowerStr pat).data (lowerStr hay).data

/-- starts-with on a nullable column. -/
def ciStartsOpt (hay : Option String) (pat : String) : Bool :=
  match hay with
  | some h => ciStarts h pat
  | none => false

/-- Python `str(None)` rendering used by the f-string dedup keys. -/
def optStr (o : Option String) : String :=
  match o with
  | some s => s
  | none => "None"

/-- `p` occurs as a contiguous substring of `s`. -/
def strInfix (p s : String) : Prop :=
  ∃ l r, s.data = l ++ p.data ++ r

/-! ## Data model (`models.py`, `schemas.py`) -/

/-- row of `drug_allergens` (`models.DrugAllergen`). -/
structure AllergenR where
  allergen_id : Nat
  allergen_name : String
  allergen_type : String
  cross_sensitivity_group : Option String
deriving DecidableEq, Repr

/-- row of `patient_allergies` (`models.PatientAllergy`), already filtered
to `status == active` as in the query of `check_prescription`. -/
structure PatientAllergyR where
  allergen_id : Nat
  severity : String
  reaction_description : String
deriving DecidableEq, Repr

/-- row of `drugs` (`models.Drug`); nullable columns are `Option`. -/
structure DrugR where
  drug_id : Nat
  drug_name : String
  generic_name : Option String
  active_ingredient : Option String
deriving DecidableEq, Repr

/-- in-memory table state: list order models table scan order, so
`.first()` is `List.find?`. -/
structure Db where
  drugs : List DrugR
  catalog : List AllergenR
  mappings : List (Nat × Nat)
deriving Repr

/-- `schemas.WarningItem`. -/
structure WarningItem where
  medicine : String
  allergen : Option String
  severity : Option String
  reason : String
  confidence : Option String
deriving DecidableEq, Repr

/-- `schemas.ContraindicationItem`. -/
structure ContraindicationItem where
  medicine : String
  allergen : String
  severity : String
  reason : String
deriving DecidableEq, Repr

/-- the conflict dict built by `AllergyChecker`. -/
structure Conflict where
  allergen_id : Nat
  allergen_name : String
  allergen_type : String
  severity : String
  reaction_description : String
  conflict_type : String
  cross_sensitivity_group : Option String
deriving DecidableEq, Repr

/-- the JSON-shaped record returned by the oracle collaborator
(`groq_client.analyze_cross_reactivity`); every key may be missing. -/
structure CrossResult where
  has_cross_reactivity : Option Bool
  confidence : Option String
  explanation : Option String
  risk_level : Option String
  recommendations : List String
deriving DecidableEq, Repr

/-- accumulator of the medicine loop in `check_prescription`. -/
structure CheckSt where
  warnings : List WarningItem
  contraindications : List ContraindicationItem
  safe : List String
deriving DecidableEq, Repr

/-- `schemas.PrescriptionResponse` (without the free-text AI summary,
which is produced by an out-of-scope collaborator). -/
structure PrescriptionResponse where
  patient_name : String
  patient_id : Nat
  is_safe : Bool
  warnings : List WarningItem
  contraindications : List ContraindicationItem
  safe_medicines : List String
deriving DecidableEq, Repr

/-! ## Query interface and its pure instantiation -/

/-- pure query semantics against `Db`, mirroring the SQLAlchemy calls. -/
def findAllergen (db : Db) (i : Nat) : Option AllergenR :=
  db.catalog.find? (fun al => al.allergen_id == i)

/-- allergen ids mapped to a drug (`DrugAllergenMapping` filter). -/
def mappingsFor (db : Db) (d : Nat) : List Nat :=
  (db.mappings.filter (fun p => p.1 == d)).map (·.2)

/-- `Drug.drug_name.ilike(PCT name PCT).first()`. -/
def findByName (db : Db) (s : String) : Option DrugR :=
  db.drugs.find? (fun d => ciHas d.drug_name s)

/-- `Drug.generic_name.ilike(...).first()`. -/
def findByGeneric (db : Db) (s : String) : Option DrugR :=
  db.drugs.find? (fun d => ciHasOpt d.generic_name s)

/-- `Drug.active_ingredient.ilike(...).first()`. -/
def findByActive (db : Db) (s : String) : Option DrugR :=
  db.drugs.find? (fun d => ciHasOpt d.active_ingredient s)

/-- suggestion query 1 of the not-found branch: starts-with on
drug name or generic name, `limit(3)`. -/
def startMatches (db : Db) (pat : String) : List DrugR :=
  (db.drugs.filter
    (fun d => ciStarts d.drug_name pat || ciStartsOpt d.generic_name pat)).take 3

/-- suggestion query 2: substring anywhere on name, generic or active
ingredient, `limit(2)`. -/
def substrMatches (db : Db) (s : String) : List DrugR :=
  (db.drugs.filter
    (fun d => ciHas d.drug_name s || ciHasOpt d.generic_name s ||
      ciHasOpt d.active_ingredient s)).take 2

/-- fallible query interface: each database round trip may raise, in which
case the Python caller sees an exception (`Except.error`). -/
structure FDb where
  byNameQ : String → Except Unit (Option DrugR)
  byGenericQ : String → Except Unit (Option DrugR)
  byActiveQ : String → Except Unit (Option DrugR)
  startQ : String → Except Unit (List DrugR)
  substrQ : String → Except Unit (List DrugR)
  mappingsQ : Nat → Except Unit (List Nat)
  allergenQ : Nat → Except Unit (Option AllergenR)

/-- which query calls raise, for fault-injection runs. -/
structure Faults where
  byNameF : String → Bool
  byGenericF : String → Bool
  byActiveF : String → Bool
  startF : String → Bool
  substrF : String → Bool
  mappingsF : Nat → Bool
  allergenF : Nat → Bool

/-- the fault-free pattern. -/
def noFaults : Faults :=
  ⟨fun _ => false, fun _ => false, fun _ => false, fun _ => false,
   fun _ => false, fun _ => false, fun _ => false⟩

/-- run queries against `db`, raising exactly where `f` says so. -/
def FDb.ofDbFaults (db : Db) (f : Faults) : FDb where
  byNameQ s := if f.byNameF s then .error () else .ok (findByName db s)
  byGenericQ s := if f.byGenericF s then .error () else .ok (findByGeneric db s)
  byActiveQ s := if f.byActiveF s then .error () else .ok (findByActive db s)
  startQ s := if f.startF s then .error () else .ok (startMatches db s)
  substrQ s := if f.substrF s then .error () else .ok (substrMatches db s)
  mappingsQ d := if f.mappingsF d then .error () else .ok (mappingsFor db d)
  allergenQ i := if f.allergenF i then .error () else .ok (findAllergen db i)

/-- fault-free query interface over `db`. -/
def FDb.ofDb (db : Db) : FDb := FDb.ofDbFaults db noFaults

/-! ## `allergy_checker.py` — direct and cross-sensitivity matching

Each Python `for` loop that can hit a raising query is embedded as a
recursion into `Except`, whose `.error` payload is the accumulator at the
moment the exception fires; the surrounding `try/except` then materialises
as catching that payload. -/

/-- conflict dict of the direct-match branch. -/
def mkDirectConflict (al : AllergenR) (a : PatientAllergyR) : Conflict :=
  { allergen_id := al.allergen_id
    allergen_name := al.allergen_name
    allergen_type := al.allergen_type
    severity := a.severity
    reaction_description := a.reaction_description
    conflict_type := "direct"
    cross_sensitivity_group := al.cross_sensitivity_group }

/-- conflict dict of the cross-sensitivity branch. -/
def mkCrossConflict (al : AllergenR) (a : PatientAllergyR) (g : String) : Conflict :=
  { allergen_id := al.allergen_id
    allergen_name := al.allergen_name
    allergen_type := al.allergen_type
    severity := a.severity
    reaction_description := a.reaction_description
    conflict_type := "cross_sensitivity"
    cross_sensitivity_group := some g }

/-- set-insert into the insertion-ordered list modelling a Python set. -/
def insG (gs : List String) (g : String) : List String :=
  if gs.contains g then gs else gs ++ [g]

/-- the `patient_groups` collection loop of `_check_cross_sensitivity`:
one allergen lookup per patient allergy; a raising lookup aborts the loop. -/
def collectPatientGroups (fdb : FDb) : List PatientAllergyR → List String →
    Except Unit (List String)
  | [], acc => .ok acc
  | a :: rest, acc =>
    match fdb.allergenQ a.allergen_id with
    | .error e => .error e
    | .ok none => collectPatientGroups fdb rest acc
    | .ok (some al) =>
      match al.cross_sensitivity_group with
      | some g => collectPatientGroups fdb rest (insG acc g)
      | none => collectPatientGroups fdb rest acc

/-- the `drug_groups` collection loop over the drug's allergen ids. -/
def collectIdGroups (fdb : FDb) : List Nat → List String →
    Except Unit (List String)
  | [], acc => .ok acc
  | i :: rest, acc =>
    match fdb.allergenQ i with
    | .error e => .error e
    | .ok none => collectIdGroups fdb rest acc
    | .ok (some al) =>
      match al.cross_sensitivity_group with
      | some g => collectIdGroups fdb rest (insG acc g)
      | none => collectIdGroups fdb rest acc

/-- inner loop `for allergy in patient_allergies` of the final
cross-sensitivity pass, for one overlapping group `g`; `.error` carries the
conflicts accumulated when a lookup raises. -/
def crossAllergyLoop (fdb : FDb) (g : String) : List PatientAllergyR →
    List Conflict → Except (List Conflict) (List Conflict)
  | [], acc => .ok acc
  | a :: rest, acc =>
    match fdb.allergenQ a.allergen_id with
    | .error _ => .error acc
    | .ok none => crossAllergyLoop fdb g rest acc
    | .ok (some al) =>
      if al.cross_sensitivity_group == some g then
        crossAllergyLoop fdb g rest (acc ++ [mkCrossConflict al a g])
      else
        crossAllergyLoop fdb g rest acc

/-- outer loop `for group in overlapping_groups`. -/
def crossGroupLoop (fdb : FDb) (allergies : List PatientAllergyR) :
    List String → List Conflict → Except (List Conflict) (List Conflict)
  | [], acc => .ok acc
  | g :: gs, acc =>
    match crossAllergyLoop fdb g allergies acc with
    | .error acc2 => .error acc2
    | .ok acc2 => crossGroupLoop fdb allergies gs acc2

/-- `AllergyChecker._check_cross_sensitivity`: its `try/except` catches any
query exception and returns the conflicts accumulated so far. -/
def check_cross_sensitivity (fdb : FDb) (allergies : List PatientAllergyR)
    (drugAllergenIds : List Nat) : List Conflict :=
  match collectPatientGroups fdb allergies [] with
  | .error _ => []
  | .ok pg =>
    match collectIdGroups fdb drugAllergenIds [] with
    | .error _ => []
    | .ok dg =>
      match crossGroupLoop fdb allergies (pg.filter (fun g => dg.contains g)) [] with
      | .ok cs => cs
      | .error cs => cs

/-- direct-match loop `for patient_allergy in patient_allergies` of
`check_direct_allergies`; a raising allergen lookup aborts with the
conflicts accumulated so far, a lookup returning no row is skipped. -/
def directLoop (fdb : FDb) (ids : List Nat) : List PatientAllergyR →
    List Conflict → Except (List Conflict) (List Conflict)
  | [], acc => .ok acc
  | a :: rest, acc =>
    if ids.contains a.allergen_id then
      match fdb.allergenQ a.allergen_id with
      | .error _ => .error acc
      | .ok none => directLoop fdb ids rest acc
      | .ok (some al) => directLoop fdb ids rest (acc ++ [mkDirectConflict al a])
    else
      directLoop fdb ids rest acc

/-- `AllergyChecker.check_direct_allergies`: mapping query, direct loop,
then the cross-sensitivity pass; the outer `try/except` catches every
query exception and returns the conflicts accumulated up to that point. -/
def check_direct_allergies (fdb : FDb) (allergies : List PatientAllergyR)
    (drug : DrugR) : List Conflict :=
  match fdb.mappingsQ drug.drug_id with
  | .error _ => []
  | .ok ids =>
    match directLoop fdb ids allergies [] with
    | .error acc => acc
    | .ok direct => direct ++ check_cross_sensitivity fdb allergies ids

/-! ### Pure shadows of the matcher, for stating fault-free behaviour -/

/-- fault-free value of `collectPatientGroups`. -/
def patientGroupsPure (db : Db) : List PatientAllergyR → List String → List String
  | [], acc => acc
  | a :: rest, acc =>
    match findAllergen db a.allergen_id with
    | none => patientGroupsPure db rest acc
    | some al =>
      match al.cross_sensitivity_group with
      | some g => patientGroupsPure db rest (insG acc g)
      | none => patientGroupsPure db rest acc

/-- fault-free value of `collectIdGroups`. -/
def idGroupsPure (db : Db) : List Nat → List String → List String
  | [], acc => acc
  | i :: rest, acc =>
    match findAllergen db i with
    | none => idGroupsPure db rest acc
    | some al =>
      match al.cross_sensitivity_group with
      | some g => idGroupsPure db rest (insG acc g)
      | none => idGroupsPure db rest acc

/-- fault-free inner cross loop, as a `filterMap`. -/
def crossAllergiesPure (db : Db) (g : String) (l : List PatientAllergyR) :
    List Conflict :=
  l.filterMap (fun a =>
    match findAllergen db a.allergen_id with
    | some al =>
      if al.cross_sensitivity_group == some g then some (mkCrossConflict al a g)
      else none
    | none => none)

/-- fault-free value of the whole cross-sensitivity pass. -/
def crossPure (db : Db) (allergies : List PatientAllergyR) (ids : List Nat) :
    List Conflict :=
  (((patientGroupsPure db allergies []).filter
      (fun g => (idGroupsPure db ids []).contains g)).map
    (fun g => crossAllergiesPure db g allergies)).flatten

/-- fault-free direct loop, as a `filterMap`. -/
def directPure (db : Db) (ids : List Nat) (l : List PatientAllergyR) :
    List Conflict :=
  l.filterMap (fun a =>
    if ids.contains a.allergen_id then
      match findAllergen db a.allergen_id with
      | some al => some (mkDirectConflict al a)
      | none => none
    else none)

/-- fault-free value of `check_direct_allergies`. -/
def checkDirectPure (db : Db) (allergies : List PatientAllergyR)
    (drug : DrugR) : List Conflict :=
  directPure db (mappingsFor db drug.drug_id) allergies ++
    crossPure db allergies (mappingsFor db drug.drug_id)

/-! ## `main.py` — the per-medicine loop of `check_prescription` -/

/-- `conflict_key = f"{medicine_name}_{allergen_name}_{severity}"`. -/
def conflictKey (m : String) (k : Conflict) : String :=
  m ++ "_" ++ k.allergen_name ++ "_" ++ k.severity

/-- key recomputed from a stored contraindication item. -/
def contraKey (c : ContraindicationItem) : String :=
  c.medicine ++ "_" ++ c.allergen ++ "_" ++ c.severity

/-- key recomputed from a stored warning item; a missing field renders as
Python `str(None)`. -/
def warnKey (w : WarningItem) : String :=
  w.medicine ++ "_" ++ optStr w.allergen ++ "_" ++ optStr w.severity

/-- all keys currently occupied across both result lists. -/
def allKeysL (st : CheckSt) : List String :=
  st.contraindications.map contraKey ++ st.warnings.map warnKey

/-- `conflict['severity'] in ['life_threatening', 'severe']`. -/
def isSevere (s : String) : Bool :=
  s == "life_threatening" || s == "severe"

/-- contraindication item built for a severe conflict. -/
def mkContra (m : String) (k : Conflict) : ContraindicationItem :=
  { medicine := m
    allergen := k.allergen_name
    severity := k.severity
    reason := "Direct allergy match: " ++ k.reaction_description }

/-- warning item built for a non-severe conflict. -/
def mkWarn (m : String) (k : Conflict) : WarningItem :=
  { medicine := m
    allergen := some k.allergen_name
    severity := some k.severity
    reason := "Known allergy: " ++ k.reaction_description
    confidence := none }

/-- the `for conflict in direct_conflicts` classification loop with its
duplicate check (`main.py` 196-220): a conflict whose key is already taken
is dropped; otherwise severity decides the bucket. -/
def processConflicts (m : String) : List Conflict → CheckSt → CheckSt
  | [], st => st
  | k :: rest, st =>
    if (st.contraindications.map contraKey).contains (conflictKey m k) ||
        (st.warnings.map warnKey).contains (conflictKey m k) then
      processConflicts m rest st
    else if isSevere k.severity then
      processConflicts m rest
        { st with contraindications := st.contraindications ++ [mkContra m k] }
    else
      processConflicts m rest
        { st with warnings := st.warnings ++ [mkWarn m k] }

/-- ordered deduplication of the suggestion names (`unique_suggestions`). -/
def uniqueList : List String → List String → List String
  | [], acc => acc
  | s :: rest, acc =>
    if acc.contains s then uniqueList rest acc else uniqueList rest (acc ++ [s])

/-- `" Did you mean: ..., ...?"` over the first three unique suggestions. -/
def suggTextOf (shown : List String) : String :=
  if shown.isEmpty then ""
  else " Did you mean: " ++ String.intercalate ", " shown ++ "?"

/-- the not-found warning item (`main.py` 179-183). -/
def notFoundWarning (name : String) (shown : List String) : WarningItem :=
  { medicine := name
    allergen := none
    severity := none
    reason := "Medicine " ++ sqS ++ name ++ sqS ++
      " not found in drug database. Please verify the spelling or check if it" ++
      sqS ++ "s available under a different name." ++ suggTextOf shown
    confidence := some "high" }

/-- the advisory warning built from the oracle record (`main.py` 222-227);
missing keys fall back exactly as `dict.get` does. -/
def oracleWarning (name : String) (res : CrossResult) : WarningItem :=
  { medicine := name
    allergen := none
    severity := none
    reason := res.explanation.getD "Potential cross-reactivity detected"
    confidence := some (res.confidence.getD "medium") }

/-- the three-way drug resolution `a or b or c` (`main.py` 137-147). -/
def findDrugF (fdb : FDb) (clean : String) : Except Unit (Option DrugR) :=
  match fdb.byNameQ clean with
  | .error e => .error e
  | .ok (some d) => .ok (some d)
  | .ok none =>
    match fdb.byGenericQ clean with
    | .error e => .error e
    | .ok (some d) => .ok (some d)
    | .ok none => fdb.byActiveQ clean

/-- fault-free drug resolution. -/
def findDrug (db : Db) (clean : String) : Option DrugR :=
  match findByName db clean with
  | some d => some d
  | none =>
    match findByGeneric db clean with
    | some d => some d
    | none => findByActive db clean

/-- fault-free value of the suggestion list shown in the not-found warning
(prefix matches on the first three characters, then substring matches,
deduplicated, first three kept). -/
def shownSuggestions (db : Db) (clean : String) : List String :=
  (uniqueList
    ((if 3 ≤ strLen clean then (startMatches db (strTake clean 3)).map (·.drug_name)
      else []) ++ (substrMatches db clean).map (·.drug_name)) []).take 3

/-- one iteration of `for medicine_name in prescription_data.medicines`
(`main.py` 129-230).  The oracle collaborator is a total function: both
`ai_agent.analyze_cross_reactivity` and the checker catch internally and
always return; raw database queries of this loop body are not guarded, so
their exceptions propagate (`Except.error`). -/
def checkMedicine (fdb : FDb) (oracle : DrugR → CrossResult)
    (allergies : List PatientAllergyR) (name : String) (st : CheckSt) :
    Except Unit CheckSt :=
  let clean := cleanName name
  match findDrugF fdb clean with
  | .error e => .error e
  | .ok none =>
    match (if 3 ≤ strLen clean then fdb.startQ (strTake clean 3) else .ok []) with
    | .error e => .error e
    | .ok pms =>
      match fdb.substrQ clean with
      | .error e => .error e
      | .ok sms =>
        let uniq := uniqueList (pms.map (·.drug_name) ++ sms.map (·.drug_name)) []
        .ok { st with warnings := st.warnings ++ [notFoundWarning name (uniq.take 3)] }
  | .ok (some drug) =>
    let conflicts := check_direct_allergies fdb allergies drug
    let res := oracle drug
    if conflicts.isEmpty then
      if res.has_cross_reactivity.getD false then
        .ok { st with warnings := st.warnings ++ [oracleWarning name res] }
      else
        .ok { st with safe := st.safe ++ [name] }
    else
      .ok (processConflicts name conflicts st)

/-- the whole medicine loop; one raising iteration aborts the rest. -/
def checkMedicines (fdb : FDb) (oracle : DrugR → CrossResult)
    (allergies : List PatientAllergyR) : List String → CheckSt →
    Except Unit CheckSt
  | [], st => .ok st
  | m :: rest, st =>
    match checkMedicine fdb oracle allergies m st with
    | .error e => .error e
    | .ok st2 => checkMedicines fdb oracle allergies rest st2

/-- `check_prescription` after patient resolution: run the loop, then
`is_safe = len(contraindications) == 0`; the only exception handler is the
endpoint-level `except Exception` which re-raises as HTTP 500
(`Except.error`). -/
def check_prescription (fdb : FDb) (oracle : DrugR → CrossResult)
    (pname : String) (pid : Nat) (allergies : List PatientAllergyR)
    (medicines : List String) : Except Unit PrescriptionResponse :=
  match checkMedicines fdb oracle allergies medicines ⟨[], [], []⟩ with
  | .error e => .error e
  | .ok st =>
    .ok { patient_name := pname
          patient_id := pid
          is_safe := st.contraindications.length == 0
          warnings := st.warnings
          contraindications := st.contraindications
          safe_medicines := st.safe }

/-! ## `main.py` — `upload_prescription` handoff of extracted names -/

/-- result of the extraction collaborator
(`prescription_ocr.extract_medicines_from_file`). -/
structure OcrResult where
  success : Bool
  error : String
  medicines : List String
  extracted_text : String
deriving Repr

/-- outcome of `upload_prescription` after the OCR step. -/
inductive UploadResult where
  | failed (err : String)
  | analyzed (analysis : Except Unit PrescriptionResponse) (extracted : List String)
  | noMeds (msg : String)
deriving Repr

/-- `upload_prescription` (`main.py` 436-471): on OCR success with a
non-empty medicine list, a `PrescriptionRequest` is built with
`medicines=extracted_medicines` — the full extracted list — and passed to
`check_prescription`. -/
def upload_prescription (fdb : FDb) (oracle : DrugR → CrossResult)
    (pname : String) (pid : Nat) (allergies : List PatientAllergyR)
    (ocr : OcrResult) : UploadResult :=
  if ocr.success = false then .failed ocr.error
  else if ocr.medicines.isEmpty then
    .noMeds "No medicines found in the prescription. Please verify the file quality and try again."
  else
    .analyzed (check_prescription fdb oracle pname pid allergies ocr.medicines)
      ocr.medicines

/-! ## `ai_agent.py` / `groq_client.py` — oracle failure handling -/

/-- outcome of the LLM round trip inside
`GroqClient.analyze_cross_reactivity`. -/
inductive GroqOutcome where
  | parsed (r : CrossResult)
  | unparseable
  | llmError (msg : String)

/-- `GroqClient.analyze_cross_reactivity`: parsed JSON is returned as-is;
a `JSONDecodeError` or any exception yields the hard-coded fallback dicts
(`groq_client.py` 88-111).  The function is total: it never raises. -/
def groq_analyze_cross_reactivity : GroqOutcome → CrossResult
  | .parsed r => r
  | .unparseable =>
    { has_cross_reactivity := some false
      confidence := some "low"
      explanation := some "Unable to parse AI response"
      risk_level := some "low"
      recommendations := ["Manual review recommended"] }
  | .llmError e =>
    { has_cross_reactivity := some false
      confidence := some "low"
      explanation := some ("Analysis error: " ++ e)
      risk_level := some "low"
      recommendations := ["Manual review required due to system error"] }

/-- outcome of the public `MedicalAIAgent.analyze_cross_reactivity`: either
the workflow completes and returns the Groq-level record, or the method
body raises (data preparation / workflow invocation) and the outer
`except` builds its own fallback dict (`ai_agent.py` 183-237). -/
inductive AgentOutcome where
  | groq (g : GroqOutcome)
  | agentError (msg : String)

/-- `MedicalAIAgent.analyze_cross_reactivity`, total by construction: every
failure path is caught and replaced by a record. -/
def analyze_cross_reactivity_agent : AgentOutcome → CrossResult
  | .groq g => groq_analyze_cross_reactivity g
  | .agentError e =>
    { has_cross_reactivity := some false
      confidence := some "low"
      explanation := some ("Error during analysis: " ++ e)
      risk_level := none
      recommendations := [] }

/-- the fixed safe default record described by the specification
(modelled from the spec for comparison with the code paths). -/
def specSafeDefault : CrossResult :=
  { has_cross_reactivity := some false
    confidence := some "low"
    explanation := some "analysis unavailable"
    risk_level := none
    recommendations := [] }

/-! ## Observation helpers used by the theorems -/

/-- (medicine, allergen, severity) triple of a warning. -/
def wTriple (w : WarningItem) : String × Option String × Option String :=
  (w.medicine, w.allergen, w.severity)

/-- (medicine, allergen, severity) triple of a contraindication. -/
def cTriple (c : ContraindicationItem) : String × Option String × Option String :=
  (c.medicine, some c.allergen, some c.severity)

/-- all triples across the union of the two result lists. -/
def unionTriples (r : PrescriptionResponse) :
    List (String × Option String × Option String) :=
  r.warnings.map wTriple ++ r.contraindications.map cTriple

/-- number of extracted names handed to the prescription check. -/
def passedCount : UploadResult → Nat
  | .analyzed _ ms => ms.length
  | _ => 0

/-- number of warnings of the analysis produced by an upload. -/
def uploadWarningCount : UploadResult → Nat
  | .analyzed (.ok r) _ => r.warnings.length
  | _ => 0

/-! ## Concrete fixtures used by witnesses and counterexamples -/

/-- empty table state. -/
def dbEmpty : Db := ⟨[], [], []⟩

/-- an oracle collaborator returning an empty JSON object. -/
def oracle0 : DrugR → CrossResult := fun _ => ⟨none, none, none, none, []⟩

/-- catalog with one beta-lactam allergen mapped to one drug. -/
def dbPeni : Db :=
  ⟨[⟨1, "Amoxicillin", none, none⟩],
   [⟨1, "Penicillin", "active_ingredient", some "beta_lactam"⟩],
   [(1, 1)]⟩

/-- a patient with one severe active Penicillin allergy. -/
def algPeni : List PatientAllergyR := [⟨1, "severe", "hives"⟩]

/-- fault pattern: every allergen lookup raises. -/
def faultsAllergen : Faults := { noFaults with allergenF := fun _ => true }

/-- query interface in which resolving the drug name "MedA" raises and
everything else runs against the empty tables. -/
def fdbMedA : FDb :=
  FDb.ofDbFaults dbEmpty { noFaults with byNameF := fun s => s == "MedA" }

/-- eleven extraction-collaborator names. -/
def elevenMeds : List String :=
  ["M01", "M02", "M03", "M04", "M05", "M06", "M07", "M08", "M09", "M10", "M11"]

/-! ## C3 -/

/-- C3: for every prescription check result, `is_safe` equals
`len(contraindications) == 0`; in particular warnings never affect it. -/
theorem C3_is_safe_eq_no_contraindications :
    ∀ (fdb : FDb) (oracle : DrugR → CrossResult) (pname : String) (pid : Nat)
      (allergies : List PatientAllergyR) (medicines : List String)
      (r : PrescriptionResponse),
      check_prescription fdb oracle pname pid allergies medicines = .ok r →
      r.is_safe = (r.contraindications.length == 0) := by
  intro fdb oracle pname pid allergies medicines r h
  unfold check_prescription at h
  cases hm : checkMedicines fdb oracle allergies medicines ⟨[], [], []⟩ with
  | error e => rw [hm] at h; cases h
  | ok st => rw [hm] at h; cases h; rfl

/-- the response of checking two unknown medicines on empty tables. -/
def respTwoUnknown : PrescriptionResponse :=
  ⟨"P", 1, true, [notFoundWarning "X" [], notFoundWarning "X" []], [], []⟩

theorem C3_is_safe_eq_no_contraindications_witness :
    respTwoUnknown.is_safe = (respTwoUnknown.contraindications.length == 0) :=
  C3_is_safe_eq_no_contraindications (FDb.ofDb dbEmpty) oracle0 "P" 1 [] ["X", "X"]
    respTwoUnknown rfl

/-! ## C6 -/

/-- C6 counterexample: when the LLM call raises (for example a timeout),
the cross-reactivity call returns a record whose explanation is
"Analysis error: ..." — not the fixed record with explanation
"analysis unavailable" stated by the claim. -/
theorem C6_counterexample_explanation :
    (analyze_cross_reactivity_agent (.groq (.llmError "timeout")) == specSafeDefault) =
      false ∧
    (analyze_cross_reactivity_agent (.groq (.llmError "timeout"))).explanation =
      some "Analysis error: timeout" ∧
    specSafeDefault.explanation = some "analysis unavailable" := by
  exact ⟨by decide, by decide, by decide⟩

/-- C6 (amended): on every failing oracle outcome (LLM error or timeout,
unparseable result, or agent-level error) the call returns, without
raising, a safe record with `has_cross_reactivity = false` and
`confidence = "low"`; the explanation text varies with the failure mode. -/
theorem C6_failure_returns_safe_default :
    ∀ (o : AgentOutcome), (∀ r, o ≠ .groq (.parsed r)) →
      (analyze_cross_reactivity_agent o).has_cross_reactivity = some false ∧
      (analyze_cross_reactivity_agent o).confidence = some "low" := by
  intro o h
  cases o with
  | groq g =>
    cases g with
    | parsed r => exact absurd rfl (h r)
    | unparseable => exact ⟨rfl, rfl⟩
    | llmError e => exact ⟨rfl, rfl⟩
  | agentError e => exact ⟨rfl, rfl⟩

theorem C6_failure_returns_safe_default_witness :
    (analyze_cross_reactivity_agent (.groq .unparseable)).has_cross_reactivity =
      some false ∧
    (analyze_cross_reactivity_agent (.groq .unparseable)).confidence = some "low" :=
  C6_failure_returns_safe_default (.groq .unparseable) (fun r h => by cases h)

/-! ## C7 -/

/-- C7 counterexample: a raising query while evaluating the first medicine
aborts the whole check — the endpoint produces an HTTP 500 error instead
of a structurally complete result; the second medicine is never evaluated
and no manual-review warning is emitted. -/
theorem C7_counterexample_batch_aborts :
    check_prescription fdbMedA oracle0 "P" 1 [] ["MedA", "MedB"] = .error () ∧
    check_prescription fdbMedA oracle0 "P" 1 [] ["MedB"] =
      .ok ⟨"P", 1, true, [notFoundWarning "MedB" []], [], []⟩ := by
  exact ⟨rfl, rfl⟩

/-- C7 (amended): an unexpected failure while evaluating one medicine
aborts the batch: the exception propagates out of the loop, the remaining
medicines are not evaluated, and `check_prescription` yields the
endpoint-level error instead of a result. -/
theorem C7_failure_aborts_batch :
    ∀ (fdb : FDb) (oracle : DrugR → CrossResult)
      (allergies : List PatientAllergyR) (m : String) (rest : List String)
      (st : CheckSt) (pname : String) (pid : Nat),
      checkMedicine fdb oracle allergies m st = .error () →
      checkMedicines fdb oracle allergies (m :: rest) st = .error () ∧
      (st = ⟨[], [], []⟩ →
        check_prescription fdb oracle pname pid allergies (m :: rest) = .error ()) := by
  intro fdb oracle allergies m rest st pname pid h
  constructor
  · unfold checkMedicines
    rw [h]
  · intro hst
    subst hst
    unfold check_prescription checkMedicines
    rw [h]

theorem C7_failure_aborts_batch_witness :
    checkMedicines fdbMedA oracle0 [] ["MedA", "MedB"] ⟨[], [], []⟩ = .error () ∧
    ((⟨[], [], []⟩ : CheckSt) = ⟨[], [], []⟩ →
      check_prescription fdbMedA oracle0 "P" 1 [] ["MedA", "MedB"] = .error ()) :=
  C7_failure_aborts_batch fdbMedA oracle0 [] "MedA" ["MedB"] ⟨[], [], []⟩ "P" 1 rfl

/-! ## C9 -/

/-- C9 counterexample: eleven names produced by the extraction
collaborator are all passed into the prescription check — each of the
eleven yields its own not-found warning — so no bound of 10 is applied. -/
theorem C9_counterexample_no_truncation :
    passedCount
        (upload_prescription (FDb.ofDb dbEmpty) oracle0 "P" 1 [] ⟨true, "", elevenMeds, "t"⟩) = 11 ∧
    uploadWarningCount
        (upload_prescription (FDb.ofDb dbEmpty) oracle0 "P" 1 [] ⟨true, "", elevenMeds, "t"⟩) = 11 := by
  exact ⟨by decide, by decide⟩

/-- C9 (amended): the engine passes the extraction collaborator's medicine
list into the prescription check unchanged — every extracted name, with no
truncation bound. -/
theorem C9_all_extracted_names_passed :
    ∀ (fdb : FDb) (oracle : DrugR → CrossResult) (pname : String) (pid : Nat)
      (allergies : List PatientAllergyR) (ocr : OcrResult),
      ocr.success = true → ocr.medicines ≠ [] →
      upload_prescription fdb oracle pname pid allergies ocr =
        .analyzed (check_prescription fdb oracle pname pid allergies ocr.medicines)
          ocr.medicines := by
  intro fdb oracle pname pid allergies ocr hs hm
  unfold upload_prescription
  rw [hs]
  simp only [Bool.true_eq_false, if_false]
  rw [if_neg]
  simp [List.isEmpty_iff, hm]

theorem C9_all_extracted_names_passed_witness :
    upload_prescription (FDb.ofDb dbEmpty) oracle0 "P" 1 [] ⟨true, "", ["A"], "t"⟩ =
      .analyzed (check_prescription (FDb.ofDb dbEmpty) oracle0 "P" 1 [] ["A"]) ["A"] :=
  C9_all_extracted_names_passed (FDb.ofDb dbEmpty) oracle0 "P" 1 []
    ⟨true, "", ["A"], "t"⟩ rfl (by decide)

/-! ## C5 -/

/-- an oracle collaborator asserting cross-reactivity. -/
def oracleYes : DrugR → CrossResult :=
  fun _ => ⟨some true, some "high", some "possible cross-reactivity", some "high", []⟩

/-- C5: the oracle record can only ever surface as a warning.  First, the
contraindication list produced by a medicine step does not depend on the
oracle's answer at all; second, when the direct/cross-sensitivity matcher
returned at least one finding for the medicine, the whole step is
independent of the oracle — no separate oracle-derived warning is emitted. -/
theorem C5_oracle_never_contraindication :
    (∀ (fdb : FDb) (o1 o2 : DrugR → CrossResult)
       (allergies : List PatientAllergyR) (name : String) (st : CheckSt),
       Except.map (fun s => s.contraindications) (checkMedicine fdb o1 allergies name st) =
       Except.map (fun s => s.contraindications) (checkMedicine fdb o2 allergies name st)) ∧
    (∀ (fdb : FDb) (o1 o2 : DrugR → CrossResult)
       (allergies : List PatientAllergyR) (name : String) (st : CheckSt) (d : DrugR),
       findDrugF fdb (cleanName name) = .ok (some d) →
       check_direct_allergies fdb allergies d ≠ [] →
       checkMedicine fdb o1 allergies name st = checkMedicine fdb o2 allergies name st) := by
  constructor
  · intro fdb o1 o2 allergies name st
    cases hfd : findDrugF fdb (cleanName name) with
    | error e => simp only [checkMedicine, hfd]
    | ok od =>
      cases od with
      | none => simp only [checkMedicine, hfd]
      | some d =>
        cases hc : (check_direct_allergies fdb allergies d).isEmpty with
        | false => simp [checkMedicine, hfd, hc]
        | true =>
          cases h1 : ((o1 d).has_cross_reactivity.getD false) <;>
            cases h2 : ((o2 d).has_cross_reactivity.getD false) <;>
              simp [checkMedicine, hfd, hc, h1, h2, Except.map]
  · intro fdb o1 o2 allergies name st d hfd hne
    have hc : (check_direct_allergies fdb allergies d).isEmpty = false := by
      cases h : check_direct_allergies fdb allergies d with
      | nil => exact absurd h hne
      | cons a l => rfl
    simp [checkMedicine, hfd, hc]

theorem C5_oracle_never_contraindication_witness :
    Except.map (fun s => s.contraindications)
        (checkMedicine (FDb.ofDb dbPeni) oracle0 algPeni "Amoxicillin" ⟨[], [], []⟩) =
      Except.map (fun s => s.contraindications)
        (checkMedicine (FDb.ofDb dbPeni) oracleYes algPeni "Amoxicillin" ⟨[], [], []⟩) ∧
    checkMedicine (FDb.ofDb dbPeni) oracle0 algPeni "Amoxicillin" ⟨[], [], []⟩ =
      checkMedicine (FDb.ofDb dbPeni) oracleYes algPeni "Amoxicillin" ⟨[], [], []⟩ :=
  ⟨C5_oracle_never_contraindication.1 (FDb.ofDb dbPeni) oracle0 oracleYes algPeni
      "Amoxicillin" ⟨[], [], []⟩,
   C5_oracle_never_contraindication.2 (FDb.ofDb dbPeni) oracle0 oracleYes algPeni
      "Amoxicillin" ⟨[], [], []⟩ ⟨1, "Amoxicillin", none, none⟩ rfl (by decide)⟩

/-! ## C8 -/

/-- `String.data` distributes over append. -/
theorem strData_append (a b : String) : (a ++ b).data = a.data ++ b.data := by
  cases a; cases b; rfl

/-- a substring of the left part survives appending on the right. -/
theorem strInfix_appL (p a b : String) : strInfix p a → strInfix p (a ++ b) := by
  rintro ⟨l, r, h⟩
  exact ⟨l, r ++ b.data, by rw [strData_append, h]; simp⟩

/-- a substring of the right part survives appending on the left. -/
theorem strInfix_appR (p a b : String) : strInfix p b → strInfix p (a ++ b) := by
  rintro ⟨l, r, h⟩
  exact ⟨a.data ++ l, r, by rw [strData_append, h]; simp⟩

/-- fault-free drug-name query. -/
theorem ofDb_byNameQ (db : Db) (s : String) :
    (FDb.ofDb db).byNameQ s = .ok (findByName db s) := rfl

/-- fault-free generic-name query. -/
theorem ofDb_byGenericQ (db : Db) (s : String) :
    (FDb.ofDb db).byGenericQ s = .ok (findByGeneric db s) := rfl

/-- fault-free active-ingredient query. -/
theorem ofDb_byActiveQ (db : Db) (s : String) :
    (FDb.ofDb db).byActiveQ s = .ok (findByActive db s) := rfl

/-- the fault-free three-way drug resolution agrees with `findDrug`. -/
theorem findDrugF_ofDb (db : Db) (s : String) :
    findDrugF (FDb.ofDb db) s = .ok (findDrug db s) := by
  unfold findDrugF findDrug
  rw [ofDb_byNameQ, ofDb_byGenericQ, ofDb_byActiveQ]
  cases findByName db s with
  | some d => rfl
  | none =>
    cases findByGeneric db s with
    | some d => rfl
    | none => rfl

/-- fault-free suggestion query 1. -/
theorem ofDb_startQ (db : Db) (s : String) :
    (FDb.ofDb db).startQ s = .ok (startMatches db s) := rfl

/-- fault-free suggestion query 2. -/
theorem ofDb_substrQ (db : Db) (s : String) :
    (FDb.ofDb db).substrQ s = .ok (substrMatches db s) := rfl

/-- fault-free allergen lookup. -/
theorem ofDb_allergenQ (db : Db) (i : Nat) :
    (FDb.ofDb db).allergenQ i = .ok (findAllergen db i) := rfl

/-- fault-free mapping query. -/
theorem ofDb_mappingsQ (db : Db) (d : Nat) :
    (FDb.ofDb db).mappingsQ d = .ok (mappingsFor db d) := rfl

/-- `uniqueList` keeps its accumulator duplicate-free. -/
theorem uniqueList_nodup : ∀ (l acc : List String), acc.Nodup →
    (uniqueList l acc).Nodup := by
  intro l
  induction l with
  | nil => intro acc h; exact h
  | cons s rest ih =>
    intro acc h
    unfold uniqueList
    cases hc : acc.contains s with
    | true => exact ih acc h
    | false =>
      have hmem : s ∉ acc := by simpa using hc
      refine ih (acc ++ [s]) ?_
      have hperm : (acc ++ [s]).Perm (s :: acc) := List.perm_append_singleton s acc
      exact hperm.nodup_iff.mpr (List.nodup_cons.mpr ⟨hmem, h⟩)

/-- C8: a medicine name that does not resolve in the catalog produces
exactly one warning (appended to the warning list, leaving
contraindications and safe list unchanged), whose reason contains
"not found"; the suggestion list shown inside it is deduplicated and has
at most three entries; and the loop continues with the remaining
medicines from the updated state. -/
theorem C8_not_found_single_warning :
    ∀ (db : Db) (oracle : DrugR → CrossResult) (allergies : List PatientAllergyR)
      (name : String) (st : CheckSt),
      findDrug db (cleanName name) = none →
      (checkMedicine (FDb.ofDb db) oracle allergies name st =
        .ok { st with warnings := st.warnings ++
          [notFoundWarning name (shownSuggestions db (cleanName name))] }) ∧
      strInfix "not found"
        (notFoundWarning name (shownSuggestions db (cleanName name))).reason ∧
      (shownSuggestions db (cleanName name)).length ≤ 3 ∧
      (shownSuggestions db (cleanName name)).Nodup ∧
      (∀ rest, checkMedicines (FDb.ofDb db) oracle allergies (name :: rest) st =
        checkMedicines (FDb.ofDb db) oracle allergies rest
          { st with warnings := st.warnings ++
            [notFoundWarning name (shownSuggestions db (cleanName name))] }) := by
  intro db oracle allergies name st hnf
  have hstep : checkMedicine (FDb.ofDb db) oracle allergies name st =
      .ok { st with warnings := st.warnings ++
        [notFoundWarning name (shownSuggestions db (cleanName name))] } := by
    have hq : findDrugF (FDb.ofDb db) (cleanName name) = .ok none := by
      rw [findDrugF_ofDb, hnf]
    simp only [checkMedicine, hq]
    unfold shownSuggestions
    by_cases h3 : 3 ≤ strLen (cleanName name)
    · rw [if_pos h3, if_pos h3, ofDb_startQ, ofDb_substrQ]
    · rw [if_neg h3, if_neg h3, ofDb_substrQ]
      simp only [List.map_nil, List.nil_append]
  refine ⟨hstep, ?_, ?_, ?_, ?_⟩
  · show strInfix "not found" _
    unfold notFoundWarning
    refine strInfix_appL _ _ _ (strInfix_appL _ _ _ (strInfix_appL _ _ _
      (strInfix_appR "not found"
        ("Medicine " ++ sqS ++ name ++ sqS)
        " not found in drug database. Please verify the spelling or check if it" ?_)))
    exact ⟨" ".data,
      " in drug database. Please verify the spelling or check if it".data, by decide⟩
  · exact List.length_take_le 3 _
  · exact ((List.take_sublist 3 _).nodup
      (uniqueList_nodup _ [] List.nodup_nil))
  · intro rest
    have hdef : checkMedicines (FDb.ofDb db) oracle allergies (name :: rest) st =
        (match checkMedicine (FDb.ofDb db) oracle allergies name st with
         | .error e => .error e
         | .ok st2 => checkMedicines (FDb.ofDb db) oracle allergies rest st2) := rfl
    rw [hdef, hstep]

theorem C8_not_found_single_warning_witness :
    checkMedicine (FDb.ofDb dbPeni) oracle0 algPeni "Zzz" ⟨[], [], []⟩ =
      .ok ⟨[notFoundWarning "Zzz" (shownSuggestions dbPeni (cleanName "Zzz"))], [], []⟩ :=
  (C8_not_found_single_warning dbPeni oracle0 algPeni "Zzz" ⟨[], [], []⟩ (by decide)).1

/-! ## C10 -/

/-- prefix relation is preserved by appending the same list on the left. -/
theorem pfx_append_left {α : Type} {l l' : List α} (x : List α) (h : l <+: l') :
    x ++ l <+: x ++ l' := by
  obtain ⟨t, ht⟩ := h
  exact ⟨t, by rw [List.append_assoc, ht]⟩

/-- a faulty allergen lookup that is not scheduled to fail is pure. -/
theorem faults_allergenQ_false (db : Db) (f : Faults) (i : Nat)
    (h : f.allergenF i = false) :
    (FDb.ofDbFaults db f).allergenQ i = .ok (findAllergen db i) := by
  simp [FDb.ofDbFaults, h]

/-- a scheduled allergen-lookup fault raises. -/
theorem faults_allergenQ_true (db : Db) (f : Faults) (i : Nat)
    (h : f.allergenF i = true) :
    (FDb.ofDbFaults db f).allergenQ i = .error () := by
  simp [FDb.ofDbFaults, h]

/-- the fault-free patient-group collection computes its pure shadow. -/
theorem collectPatientGroups_ofDb (db : Db) :
    ∀ (l : List PatientAllergyR) (acc : List String),
      collectPatientGroups (FDb.ofDb db) l acc = .ok (patientGroupsPure db l acc) := by
  intro l
  induction l with
  | nil => intro acc; rfl
  | cons a rest ih =>
    intro acc
    cases hal : findAllergen db a.allergen_id with
    | none =>
      have h1 : collectPatientGroups (FDb.ofDb db) (a :: rest) acc =
          collectPatientGroups (FDb.ofDb db) rest acc := by
        conv_lhs => unfold collectPatientGroups
        rw [ofDb_allergenQ, hal]
      have h2 : patientGroupsPure db (a :: rest) acc =
          patientGroupsPure db rest acc := by
        conv_lhs => unfold patientGroupsPure
        rw [hal]
      rw [h1, h2]
      exact ih acc
    | some al =>
      have h1 : collectPatientGroups (FDb.ofDb db) (a :: rest) acc =
          (match al.cross_sensitivity_group with
           | some g => collectPatientGroups (FDb.ofDb db) rest (insG acc g)
           | none => collectPatientGroups (FDb.ofDb db) rest acc) := by
        conv_lhs => unfold collectPatientGroups
        rw [ofDb_allergenQ, hal]
      have h2 : patientGroupsPure db (a :: rest) acc =
          (match al.cross_sensitivity_group with
           | some g => patientGroupsPure db rest (insG acc g)
           | none => patientGroupsPure db rest acc) := by
        conv_lhs => unfold patientGroupsPure
        rw [hal]
      rw [h1, h2]
      cases al.cross_sensitivity_group with
      | some g => exact ih (insG acc g)
      | none => exact ih acc

/-- the fault-free drug-group collection computes its pure shadow. -/
theorem collectIdGroups_ofDb (db : Db) :
    ∀ (l : List Nat) (acc : List String),
      collectIdGroups (FDb.ofDb db) l acc = .ok (idGroupsPure db l acc) := by
  intro l
  induction l with
  | nil => intro acc; rfl
  | cons i rest ih =>
    intro acc
    cases hal : findAllergen db i with
    | none =>
      have h1 : collectIdGroups (FDb.ofDb db) (i :: rest) acc =
          collectIdGroups (FDb.ofDb db) rest acc := by
        conv_lhs => unfold collectIdGroups
        rw [ofDb_allergenQ, hal]
      have h2 : idGroupsPure db (i :: rest) acc = idGroupsPure db rest acc := by
        conv_lhs => unfold idGroupsPure
        rw [hal]
      rw [h1, h2]
      exact ih acc
    | some al =>
      have h1 : collectIdGroups (FDb.ofDb db) (i :: rest) acc =
          (match al.cross_sensitivity_group with
           | some g => collectIdGroups (FDb.ofDb db) rest (insG acc g)
           | none => collectIdGroups (FDb.ofDb db) rest acc) := by
        conv_lhs => unfold collectIdGroups
        rw [ofDb_allergenQ, hal]
      have h2 : idGroupsPure db (i :: rest) acc =
          (match al.cross_sensitivity_group with
           | some g => idGroupsPure db rest (insG acc g)
           | none => idGroupsPure db rest acc) := by
        conv_lhs => unfold idGroupsPure
        rw [hal]
      rw [h1, h2]
      cases al.cross_sensitivity_group with
      | some g => exact ih (insG acc g)
      | none => exact ih acc

/-- the fault-free inner cross loop appends its pure shadow. -/
theorem crossAllergyLoop_ofDb (db : Db) (g : String) :
    ∀ (l : List PatientAllergyR) (acc : List Conflict),
      crossAllergyLoop (FDb.ofDb db) g l acc =
        .ok (acc ++ crossAllergiesPure db g l) := by
  intro l
  induction l with
  | nil => intro acc; simp [crossAllergyLoop, crossAllergiesPure]
  | cons a rest ih =>
    intro acc
    cases hal : findAllergen db a.allergen_id with
    | none =>
      have hred : crossAllergyLoop (FDb.ofDb db) g (a :: rest) acc =
          crossAllergyLoop (FDb.ofDb db) g rest acc := by
        conv_lhs => unfold crossAllergyLoop
        rw [ofDb_allergenQ, hal]
      rw [hred, ih]
      simp [crossAllergiesPure, hal]
    | some al =>
      have hred : crossAllergyLoop (FDb.ofDb db) g (a :: rest) acc =
          (if al.cross_sensitivity_group == some g then
            crossAllergyLoop (FDb.ofDb db) g rest (acc ++ [mkCrossConflict al a g])
          else crossAllergyLoop (FDb.ofDb db) g rest acc) := by
        conv_lhs => unfold crossAllergyLoop
        rw [ofDb_allergenQ, hal]
      rw [hred]
      cases hg : (al.cross_sensitivity_group == some g) with
      | true =>
        have hg2 : al.cross_sensitivity_group = some g := by simpa using hg
        rw [if_pos rfl, ih]
        simp [crossAllergiesPure, hal, hg2]
      | false =>
        have hg2 : ¬ al.cross_sensitivity_group = some g := by simpa using hg
        rw [if_neg Bool.false_ne_true, ih]
        simp [crossAllergiesPure, hal, hg2]

/-- the fault-free outer cross loop appends the flattened per-group runs. -/
theorem crossGroupLoop_ofDb (db : Db) (allergies : List PatientAllergyR) :
    ∀ (gs : List String) (acc : List Conflict),
      crossGroupLoop (FDb.ofDb db) allergies gs acc =
        .ok (acc ++ (gs.map (fun g => crossAllergiesPure db g allergies)).flatten) := by
  intro gs
  induction gs with
  | nil => intro acc; simp [crossGroupLoop]
  | cons g rest ih =>
    intro acc
    have hred : crossGroupLoop (FDb.ofDb db) allergies (g :: rest) acc =
        crossGroupLoop (FDb.ofDb db) allergies rest
          (acc ++ crossAllergiesPure db g allergies) := by
      conv_lhs => unfold crossGroupLoop
      rw [crossAllergyLoop_ofDb]
    rw [hred, ih]
    simp

/-- the fault-free cross-sensitivity pass equals its pure shadow. -/
theorem check_cross_ofDb (db : Db) (allergies : List PatientAllergyR)
    (ids : List Nat) :
    check_cross_sensitivity (FDb.ofDb db) allergies ids =
      crossPure db allergies ids := by
  unfold check_cross_sensitivity
  rw [collectPatientGroups_ofDb, collectIdGroups_ofDb]
  show (match crossGroupLoop (FDb.ofDb db) allergies
      ((patientGroupsPure db allergies []).filter
        (fun g => (idGroupsPure db ids []).contains g)) [] with
    | .ok cs => cs
    | .error cs => cs) = crossPure db allergies ids
  rw [crossGroupLoop_ofDb]
  simp [crossPure]

/-- the fault-free direct loop appends its pure shadow. -/
theorem directLoop_ofDb (db : Db) (ids : List Nat) :
    ∀ (l : List PatientAllergyR) (acc : List Conflict),
      directLoop (FDb.ofDb db) ids l acc = .ok (acc ++ directPure db ids l) := by
  intro l
  induction l with
  | nil => intro acc; simp [directLoop, directPure]
  | cons a rest ih =>
    intro acc
    unfold directLoop
    cases hin : ids.contains a.allergen_id with
    | false =>
      rw [if_neg (by simp [hin]), ih acc]
      have hni : ¬ a.allergen_id ∈ ids := by simpa using hin
      simp [directPure, hni]
    | true =>
      rw [if_pos (by simp [hin]), ofDb_allergenQ]
      have hm : a.allergen_id ∈ ids := by simpa using hin
      cases hal : findAllergen db a.allergen_id with
      | none => exact (ih acc).trans (by simp [directPure, hm, hal])
      | some al =>
        exact (ih (acc ++ [mkDirectConflict al a])).trans
          (by simp [directPure, hm, hal])

/-- the fault-free matcher equals its pure shadow. -/
theorem check_direct_ofDb (db : Db) (allergies : List PatientAllergyR)
    (drug : DrugR) :
    check_direct_allergies (FDb.ofDb db) allergies drug =
      checkDirectPure db allergies drug := by
  unfold check_direct_allergies
  simp only [ofDb_mappingsQ, directLoop_ofDb, check_cross_ofDb, checkDirectPure,
    List.nil_append]

/-- a scheduled mapping-query fault raises. -/
theorem faults_mappingsQ_true (db : Db) (f : Faults) (d : Nat)
    (h : f.mappingsF d = true) :
    (FDb.ofDbFaults db f).mappingsQ d = .error () := by
  simp [FDb.ofDbFaults, h]

/-- a mapping query that is not scheduled to fail is pure. -/
theorem faults_mappingsQ_false (db : Db) (f : Faults) (d : Nat)
    (h : f.mappingsF d = false) :
    (FDb.ofDbFaults db f).mappingsQ d = .ok (mappingsFor db d) := by
  simp [FDb.ofDbFaults, h]

/-- under faults, the patient-group loop either computes its pure value or
raises. -/
theorem collectPatientGroups_faults (db : Db) (f : Faults) :
    ∀ (l : List PatientAllergyR) (acc : List String),
      collectPatientGroups (FDb.ofDbFaults db f) l acc =
          .ok (patientGroupsPure db l acc) ∨
        collectPatientGroups (FDb.ofDbFaults db f) l acc = .error () := by
  intro l
  induction l with
  | nil => intro acc; exact Or.inl rfl
  | cons a rest ih =>
    intro acc
    cases hf : f.allergenF a.allergen_id with
    | true =>
      refine Or.inr ?_
      conv_lhs => unfold collectPatientGroups
      rw [faults_allergenQ_true db f _ hf]
    | false =>
      cases hal : findAllergen db a.allergen_id with
      | none =>
        have h1 : collectPatientGroups (FDb.ofDbFaults db f) (a :: rest) acc =
            collectPatientGroups (FDb.ofDbFaults db f) rest acc := by
          conv_lhs => unfold collectPatientGroups
          rw [faults_allergenQ_false db f _ hf, hal]
        have h2 : patientGroupsPure db (a :: rest) acc =
            patientGroupsPure db rest acc := by
          conv_lhs => unfold patientGroupsPure
          rw [hal]
        rw [h1, h2]
        exact ih acc
      | some al =>
        have h1 : collectPatientGroups (FDb.ofDbFaults db f) (a :: rest) acc =
            (match al.cross_sensitivity_group with
             | some g => collectPatientGroups (FDb.ofDbFaults db f) rest (insG acc g)
             | none => collectPatientGroups (FDb.ofDbFaults db f) rest acc) := by
          conv_lhs => unfold collectPatientGroups
          rw [faults_allergenQ_false db f _ hf, hal]
        have h2 : patientGroupsPure db (a :: rest) acc =
            (match al.cross_sensitivity_group with
             | some g => patientGroupsPure db rest (insG acc g)
             | none => patientGroupsPure db rest acc) := by
          conv_lhs => unfold patientGroupsPure
          rw [hal]
        rw [h1, h2]
        cases al.cross_sensitivity_group with
        | some g => exact ih (insG acc g)
        | none => exact ih acc

/-- under faults, the drug-group loop either computes its pure value or
raises. -/
theorem collectIdGroups_faults (db : Db) (f : Faults) :
    ∀ (l : List Nat) (acc : List String),
      collectIdGroups (FDb.ofDbFaults db f) l acc = .ok (idGroupsPure db l acc) ∨
        collectIdGroups (FDb.ofDbFaults db f) l acc = .error () := by
  intro l
  induction l with
  | nil => intro acc; exact Or.inl rfl
  | cons i rest ih =>
    intro acc
    cases hf : f.allergenF i with
    | true =>
      refine Or.inr ?_
      conv_lhs => unfold collectIdGroups
      rw [faults_allergenQ_true db f _ hf]
    | false =>
      cases hal : findAllergen db i with
      | none =>
        have h1 : collectIdGroups (FDb.ofDbFaults db f) (i :: rest) acc =
            collectIdGroups (FDb.ofDbFaults db f) rest acc := by
          conv_lhs => unfold collectIdGroups
          rw [faults_allergenQ_false db f _ hf, hal]
        have h2 : idGroupsPure db (i :: rest) acc = idGroupsPure db rest acc := by
          conv_lhs => unfold idGroupsPure
          rw [hal]
        rw [h1, h2]
        exact ih acc
      | some al =>
        have h1 : collectIdGroups (FDb.ofDbFaults db f) (i :: rest) acc =
            (match al.cross_sensitivity_group with
             | some g => collectIdGroups (FDb.ofDbFaults db f) rest (insG acc g)
             | none => collectIdGroups (FDb.ofDbFaults db f) rest acc) := by
          conv_lhs => unfold collectIdGroups
          rw [faults_allergenQ_false db f _ hf, hal]
        have h2 : idGroupsPure db (i :: rest) acc =
            (match al.cross_sensitivity_group with
             | some g => idGroupsPure db rest (insG acc g)
             | none => idGroupsPure db rest acc) := by
          conv_lhs => unfold idGroupsPure
          rw [hal]
        rw [h1, h2]
        cases al.cross_sensitivity_group with
        | some g => exact ih (insG acc g)
        | none => exact ih acc

/-- under faults, the inner cross loop either appends its pure value or
raises with a prefix of it. -/
theorem crossAllergyLoop_faults (db : Db) (f : Faults) (g : String) :
    ∀ (l : List PatientAllergyR) (acc : List Conflict),
      crossAllergyLoop (FDb.ofDbFaults db f) g l acc =
          .ok (acc ++ crossAllergiesPure db g l) ∨
        ∃ acc2, crossAllergyLoop (FDb.ofDbFaults db f) g l acc = .error acc2 ∧
          acc2 <+: acc ++ crossAllergiesPure db g l := by
  intro l
  induction l with
  | nil => intro acc; exact Or.inl (by simp [crossAllergyLoop, crossAllergiesPure])
  | cons a rest ih =>
    intro acc
    cases hf : f.allergenF a.allergen_id with
    | true =>
      refine Or.inr ⟨acc, ?_, List.prefix_append _ _⟩
      conv_lhs => unfold crossAllergyLoop
      rw [faults_allergenQ_true db f _ hf]
    | false =>
      cases hal : findAllergen db a.allergen_id with
      | none =>
        have hred : crossAllergyLoop (FDb.ofDbFaults db f) g (a :: rest) acc =
            crossAllergyLoop (FDb.ofDbFaults db f) g rest acc := by
          conv_lhs => unfold crossAllergyLoop
          rw [faults_allergenQ_false db f _ hf, hal]
        have hp : crossAllergiesPure db g (a :: rest) = crossAllergiesPure db g rest := by
          simp [crossAllergiesPure, hal]
        rw [hred, hp]
        exact ih acc
      | some al =>
        have hred : crossAllergyLoop (FDb.ofDbFaults db f) g (a :: rest) acc =
            (if al.cross_sensitivity_group == some g then
              crossAllergyLoop (FDb.ofDbFaults db f) g rest
                (acc ++ [mkCrossConflict al a g])
            else crossAllergyLoop (FDb.ofDbFaults db f) g rest acc) := by
          conv_lhs => unfold crossAllergyLoop
          rw [faults_allergenQ_false db f _ hf, hal]
        rw [hred]
        cases hg : (al.cross_sensitivity_group == some g) with
        | true =>
          have hg2 : al.cross_sensitivity_group = some g := by simpa using hg
          have hp : crossAllergiesPure db g (a :: rest) =
              mkCrossConflict al a g :: crossAllergiesPure db g rest := by
            simp [crossAllergiesPure, hal, hg2]
          rw [if_pos rfl, hp]
          rcases ih (acc ++ [mkCrossConflict al a g]) with h | ⟨acc2, he, hp2⟩
          · exact Or.inl (by rw [h]; simp)
          · exact Or.inr ⟨acc2, he, by simpa using hp2⟩
        | false =>
          have hg2 : ¬ al.cross_sensitivity_group = some g := by simpa using hg
          have hp : crossAllergiesPure db g (a :: rest) = crossAllergiesPure db g rest := by
            simp [crossAllergiesPure, hal, hg2]
          rw [if_neg Bool.false_ne_true, hp]
          exact ih acc

/-- under faults, the outer cross loop either appends all per-group runs
or raises with a prefix of them. -/
theorem crossGroupLoop_faults (db : Db) (f : Faults)
    (allergies : List PatientAllergyR) :
    ∀ (gs : List String) (acc : List Conflict),
      crossGroupLoop (FDb.ofDbFaults db f) allergies gs acc =
          .ok (acc ++ (gs.map (fun g => crossAllergiesPure db g allergies)).flatten) ∨
        ∃ acc2, crossGroupLoop (FDb.ofDbFaults db f) allergies gs acc = .error acc2 ∧
          acc2 <+: acc ++ (gs.map (fun g => crossAllergiesPure db g allergies)).flatten := by
  intro gs
  induction gs with
  | nil => intro acc; exact Or.inl (by simp [crossGroupLoop])
  | cons g rest ih =>
    intro acc
    rcases crossAllergyLoop_faults db f g allergies acc with h | ⟨acc2, he, hp⟩
    · have hred : crossGroupLoop (FDb.ofDbFaults db f) allergies (g :: rest) acc =
          crossGroupLoop (FDb.ofDbFaults db f) allergies rest
            (acc ++ crossAllergiesPure db g allergies) := by
        conv_lhs => unfold crossGroupLoop
        rw [h]
      rw [hred]
      rcases ih (acc ++ crossAllergiesPure db g allergies) with h2 | ⟨acc3, he3, hp3⟩
      · exact Or.inl (by rw [h2]; simp)
      · exact Or.inr ⟨acc3, he3, by simpa using hp3⟩
    · have hred : crossGroupLoop (FDb.ofDbFaults db f) allergies (g :: rest) acc =
          .error acc2 := by
        conv_lhs => unfold crossGroupLoop
        rw [he]
      refine Or.inr ⟨acc2, hred, ?_⟩
      have h4 := hp.trans (List.prefix_append
        (acc ++ crossAllergiesPure db g allergies)
        ((rest.map (fun g => crossAllergiesPure db g allergies)).flatten))
      simpa using h4

/-- under faults, the cross-sensitivity pass yields a prefix of its
fault-free value. -/
theorem check_cross_faults (db : Db) (f : Faults)
    (allergies : List PatientAllergyR) (ids : List Nat) :
    check_cross_sensitivity (FDb.ofDbFaults db f) allergies ids <+:
      crossPure db allergies ids := by
  rcases collectPatientGroups_faults db f allergies [] with h1 | h1
  · rcases collectIdGroups_faults db f ids [] with h2 | h2
    · rcases crossGroupLoop_faults db f allergies
        ((patientGroupsPure db allergies []).filter
          (fun g => (idGroupsPure db ids []).contains g)) [] with h3 | ⟨acc2, he3, hp3⟩
      · have heval : check_cross_sensitivity (FDb.ofDbFaults db f) allergies ids =
            (((patientGroupsPure db allergies []).filter
                (fun g => (idGroupsPure db ids []).contains g)).map
              (fun g => crossAllergiesPure db g allergies)).flatten := by
          conv_lhs => unfold check_cross_sensitivity
          rw [h1]
          show (match collectIdGroups (FDb.ofDbFaults db f) ids [] with
                | .error _ => []
                | .ok dg =>
                    match crossGroupLoop (FDb.ofDbFaults db f) allergies
                      ((patientGroupsPure db allergies []).filter
                        (fun g => dg.contains g)) [] with
                    | .ok cs => cs
                    | .error cs => cs) = _
          rw [h2]
          show (match crossGroupLoop (FDb.ofDbFaults db f) allergies
                ((patientGroupsPure db allergies []).filter
                    (fun g => (idGroupsPure db ids []).contains g)) [] with
                | .ok cs => cs
                | .error cs => cs) = _
          rw [h3]
          simp
        rw [heval]
        exact List.prefix_refl _
      · have heval : check_cross_sensitivity (FDb.ofDbFaults db f) allergies ids =
            acc2 := by
          conv_lhs => unfold check_cross_sensitivity
          rw [h1]
          show (match collectIdGroups (FDb.ofDbFaults db f) ids [] with
                | .error _ => []
                | .ok dg =>
                    match crossGroupLoop (FDb.ofDbFaults db f) allergies
                      ((patientGroupsPure db allergies []).filter
                        (fun g => dg.contains g)) [] with
                    | .ok cs => cs
                    | .error cs => cs) = _
          rw [h2]
          show (match crossGroupLoop (FDb.ofDbFaults db f) allergies
                ((patientGroupsPure db allergies []).filter
                    (fun g => (idGroupsPure db ids []).contains g)) [] with
                | .ok cs => cs
                | .error cs => cs) = _
          rw [he3]
        rw [heval]
        have := hp3
        simpa [crossPure] using this
    · have heval : check_cross_sensitivity (FDb.ofDbFaults db f) allergies ids = [] := by
        conv_lhs => unfold check_cross_sensitivity
        rw [h1]
        show (match collectIdGroups (FDb.ofDbFaults db f) ids [] with
              | .error _ => []
              | .ok dg =>
                match crossGroupLoop (FDb.ofDbFaults db f) allergies
                  ((patientGroupsPure db allergies []).filter
                    (fun g => dg.contains g)) [] with
                | .ok cs => cs
                | .error cs => cs) = _
        rw [h2]
      rw [heval]
      exact List.nil_prefix
  · have heval : check_cross_sensitivity (FDb.ofDbFaults db f) allergies ids = [] := by
      conv_lhs => unfold check_cross_sensitivity
      rw [h1]
    rw [heval]
    exact List.nil_prefix

/-- under faults, the direct loop either appends its pure value or raises
with a prefix of it. -/
theorem directLoop_faults (db : Db) (f : Faults) (ids : List Nat) :
    ∀ (l : List PatientAllergyR) (acc : List Conflict),
      directLoop (FDb.ofDbFaults db f) ids l acc = .ok (acc ++ directPure db ids l) ∨
        ∃ acc2, directLoop (FDb.ofDbFaults db f) ids l acc = .error acc2 ∧
          acc2 <+: acc ++ directPure db ids l := by
  intro l
  induction l with
  | nil => intro acc; exact Or.inl (by simp [directLoop, directPure])
  | cons a rest ih =>
    intro acc
    cases hin : ids.contains a.allergen_id with
    | false =>
      have hred : directLoop (FDb.ofDbFaults db f) ids (a :: rest) acc =
          directLoop (FDb.ofDbFaults db f) ids rest acc := by
        conv_lhs => unfold directLoop
        rw [if_neg (by simpa using hin)]
      have hni : ¬ a.allergen_id ∈ ids := by simpa using hin
      have hp : directPure db ids (a :: rest) = directPure db ids rest := by
        simp [directPure, hni]
      rw [hred, hp]
      exact ih acc
    | true =>
      have hm : a.allergen_id ∈ ids := by simpa using hin
      cases hf : f.allergenF a.allergen_id with
      | true =>
        refine Or.inr ⟨acc, ?_, List.prefix_append _ _⟩
        conv_lhs => unfold directLoop
        rw [if_pos (by simpa using hin), faults_allergenQ_true db f _ hf]
      | false =>
        cases hal : findAllergen db a.allergen_id with
        | none =>
          have hred : directLoop (FDb.ofDbFaults db f) ids (a :: rest) acc =
              directLoop (FDb.ofDbFaults db f) ids rest acc := by
            conv_lhs => unfold directLoop
            rw [if_pos (by simpa using hin), faults_allergenQ_false db f _ hf, hal]
          have hp : directPure db ids (a :: rest) = directPure db ids rest := by
            simp [directPure, hm, hal]
          rw [hred, hp]
          exact ih acc
        | some al =>
          have hred : directLoop (FDb.ofDbFaults db f) ids (a :: rest) acc =
              directLoop (FDb.ofDbFaults db f) ids rest
                (acc ++ [mkDirectConflict al a]) := by
            conv_lhs => unfold directLoop
            rw [if_pos (by simpa using hin), faults_allergenQ_false db f _ hf, hal]
          have hp : directPure db ids (a :: rest) =
              mkDirectConflict al a :: directPure db ids rest := by
            simp [directPure, hm, hal]
          rw [hred, hp]
          rcases ih (acc ++ [mkDirectConflict al a]) with h | ⟨acc2, he, hp2⟩
          · exact Or.inl (by rw [h]; simp)
          · exact Or.inr ⟨acc2, he, by simpa using hp2⟩

/-- C10: `check_direct_allergies` never propagates an exception; under any
pattern of raising queries it returns the conflicts accumulated up to the
failure point — always a prefix of the fault-free conflict list, possibly
empty.  Concretely, on a catalog where Amoxicillin genuinely conflicts
with the patient's severe Penicillin allergy (two fault-free findings),
making every allergen lookup raise yields an empty conflict list, so the
medicine lands in `safe_medicines`. -/
theorem C10_swallowed_errors_prefix :
    (∀ (db : Db) (f : Faults) (allergies : List PatientAllergyR) (drug : DrugR),
      check_direct_allergies (FDb.ofDbFaults db f) allergies drug <+:
        check_direct_allergies (FDb.ofDb db) allergies drug) ∧
    check_direct_allergies (FDb.ofDbFaults dbPeni faultsAllergen) algPeni
      ⟨1, "Amoxicillin", none, none⟩ = [] ∧
    (check_direct_allergies (FDb.ofDb dbPeni) algPeni
      ⟨1, "Amoxicillin", none, none⟩).length = 2 ∧
    checkMedicine (FDb.ofDbFaults dbPeni faultsAllergen) oracle0 algPeni
      "Amoxicillin" ⟨[], [], []⟩ = .ok ⟨[], [], ["Amoxicillin"]⟩ := by
  refine ⟨?_, by decide, by decide, rfl⟩
  intro db f allergies drug
  rw [check_direct_ofDb]
  cases hmf : f.mappingsF drug.drug_id with
  | true =>
    have heval : check_direct_allergies (FDb.ofDbFaults db f) allergies drug = [] := by
      conv_lhs => unfold check_direct_allergies
      rw [faults_mappingsQ_true db f _ hmf]
    rw [heval]
    exact List.nil_prefix
  | false =>
    rcases directLoop_faults db f (mappingsFor db drug.drug_id) allergies []
      with h | ⟨acc2, he, hp⟩
    · have heval : check_direct_allergies (FDb.ofDbFaults db f) allergies drug =
          directPure db (mappingsFor db drug.drug_id) allergies ++
            check_cross_sensitivity (FDb.ofDbFaults db f) allergies
              (mappingsFor db drug.drug_id) := by
        conv_lhs => unfold check_direct_allergies
        rw [faults_mappingsQ_false db f _ hmf]
        show (match directLoop (FDb.ofDbFaults db f) (mappingsFor db drug.drug_id)
              allergies [] with
            | .error acc => acc
            | .ok direct => direct ++ check_cross_sensitivity (FDb.ofDbFaults db f)
                allergies (mappingsFor db drug.drug_id)) = _
        rw [h]
        simp
      rw [heval]
      exact pfx_append_left _
        (check_cross_faults db f allergies (mappingsFor db drug.drug_id))
    · have heval : check_direct_allergies (FDb.ofDbFaults db f) allergies drug =
          acc2 := by
        conv_lhs => unfold check_direct_allergies
        rw [faults_mappingsQ_false db f _ hmf]
        show (match directLoop (FDb.ofDbFaults db f) (mappingsFor db drug.drug_id)
              allergies [] with
            | .error acc => acc
            | .ok direct => direct ++ check_cross_sensitivity (FDb.ofDbFaults db f)
                allergies (mappingsFor db drug.drug_id)) = _
        rw [he]
      rw [heval]
      have hp2 : acc2 <+: directPure db (mappingsFor db drug.drug_id) allergies := by
        simpa using hp
      exact hp2.trans (List.prefix_append _ _)

theorem C10_swallowed_errors_prefix_witness :
    check_direct_allergies (FDb.ofDbFaults dbPeni faultsAllergen) algPeni
        ⟨1, "Amoxicillin", none, none⟩ <+:
      check_direct_allergies (FDb.ofDb dbPeni) algPeni
        ⟨1, "Amoxicillin", none, none⟩ :=
  C10_swallowed_errors_prefix.1 dbPeni faultsAllergen algPeni
    ⟨1, "Amoxicillin", none, none⟩

/-! ## C4 -/

/-- membership in the set-insert. -/
theorem insG_mem (acc : List String) (g x : String) :
    x ∈ insG acc g ↔ x ∈ acc ∨ x = g := by
  unfold insG
  cases hc : acc.contains g with
  | true =>
    have : g ∈ acc := by simpa using hc
    simp only [if_pos rfl]
    constructor
    · exact fun h => Or.inl h
    · rintro (h | rfl)
      · exact h
      · exact this
  | false =>
    rw [if_neg Bool.false_ne_true]
    simp

/-- the set-insert keeps the accumulator duplicate-free. -/
theorem insG_nodup (acc : List String) (g : String) (h : acc.Nodup) :
    (insG acc g).Nodup := by
  unfold insG
  cases hc : acc.contains g with
  | true => simpa [if_pos rfl] using h
  | false =>
    rw [if_neg Bool.false_ne_true]
    have hg : g ∉ acc := by simpa using hc
    have hperm : (acc ++ [g]).Perm (g :: acc) := List.perm_append_singleton g acc
    exact hperm.nodup_iff.mpr (List.nodup_cons.mpr ⟨hg, h⟩)

/-- membership in the collected patient groups. -/
theorem patientGroupsPure_mem (db : Db) :
    ∀ (l : List PatientAllergyR) (acc : List String) (g : String),
      g ∈ patientGroupsPure db l acc ↔
        g ∈ acc ∨ ∃ a, a ∈ l ∧ ∃ al, findAllergen db a.allergen_id = some al ∧
          al.cross_sensitivity_group = some g := by
  intro l
  induction l with
  | nil =>
    intro acc g
    simp [patientGroupsPure]
  | cons a rest ih =>
    intro acc g
    cases hal : findAllergen db a.allergen_id with
    | none =>
      have h2 : patientGroupsPure db (a :: rest) acc = patientGroupsPure db rest acc := by
        conv_lhs => unfold patientGroupsPure
        rw [hal]
      rw [h2, ih]
      constructor
      · rintro (h | ⟨b, hb, hrest⟩)
        · exact Or.inl h
        · exact Or.inr ⟨b, List.mem_cons_of_mem _ hb, hrest⟩
      · rintro (h | ⟨b, hb, al, hfind, hgr⟩)
        · exact Or.inl h
        · rcases List.mem_cons.mp hb with rfl | hb2
          · rw [hal] at hfind; cases hfind
          · exact Or.inr ⟨b, hb2, al, hfind, hgr⟩
    | some al =>
      have h2a : patientGroupsPure db (a :: rest) acc =
          (match al.cross_sensitivity_group with
           | some g1 => patientGroupsPure db rest (insG acc g1)
           | none => patientGroupsPure db rest acc) := by
        conv_lhs => unfold patientGroupsPure
        rw [hal]
      cases hgr : al.cross_sensitivity_group with
      | none =>
        have h2 : patientGroupsPure db (a :: rest) acc =
            patientGroupsPure db rest acc := by
          rw [h2a, hgr]
        rw [h2, ih]
        constructor
        · rintro (h | ⟨b, hb, hrest⟩)
          · exact Or.inl h
          · exact Or.inr ⟨b, List.mem_cons_of_mem _ hb, hrest⟩
        · rintro (h | ⟨b, hb, al2, hfind, hgr2⟩)
          · exact Or.inl h
          · rcases List.mem_cons.mp hb with rfl | hb2
            · rw [hal] at hfind
              cases hfind
              rw [hgr] at hgr2; cases hgr2
            · exact Or.inr ⟨b, hb2, al2, hfind, hgr2⟩
      | some g0 =>
        have h2 : patientGroupsPure db (a :: rest) acc =
            patientGroupsPure db rest (insG acc g0) := by
          rw [h2a, hgr]
        rw [h2, ih, insG_mem]
        constructor
        · rintro ((h | rfl) | ⟨b, hb, hrest⟩)
          · exact Or.inl h
          · exact Or.inr ⟨a, List.mem_cons_self a rest, al, hal, hgr⟩
          · exact Or.inr ⟨b, List.mem_cons_of_mem _ hb, hrest⟩
        · rintro (h | ⟨b, hb, al2, hfind, hgr2⟩)
          · exact Or.inl (Or.inl h)
          · rcases List.mem_cons.mp hb with rfl | hb2
            · rw [hal] at hfind
              cases hfind
              rw [hgr] at hgr2
              cases hgr2
              exact Or.inl (Or.inr rfl)
            · exact Or.inr ⟨b, hb2, al2, hfind, hgr2⟩

/-- the collected patient groups are duplicate-free. -/
theorem patientGroupsPure_nodup (db : Db) :
    ∀ (l : List PatientAllergyR) (acc : List String), acc.Nodup →
      (patientGroupsPure db l acc).Nodup := by
  intro l
  induction l with
  | nil => intro acc h; simpa [patientGroupsPure] using h
  | cons a rest ih =>
    intro acc h
    cases hal : findAllergen db a.allergen_id with
    | none =>
      have h2 : patientGroupsPure db (a :: rest) acc = patientGroupsPure db rest acc := by
        conv_lhs => unfold patientGroupsPure
        rw [hal]
      rw [h2]; exact ih acc h
    | some al =>
      have h2a : patientGroupsPure db (a :: rest) acc =
          (match al.cross_sensitivity_group with
           | some g1 => patientGroupsPure db rest (insG acc g1)
           | none => patientGroupsPure db rest acc) := by
        conv_lhs => unfold patientGroupsPure
        rw [hal]
      cases hgr : al.cross_sensitivity_group with
      | none =>
        have h2 : patientGroupsPure db (a :: rest) acc =
            patientGroupsPure db rest acc := by
          rw [h2a, hgr]
        rw [h2]; exact ih acc h
      | some g0 =>
        have h2 : patientGroupsPure db (a :: rest) acc =
            patientGroupsPure db rest (insG acc g0) := by
          rw [h2a, hgr]
        rw [h2]; exact ih (insG acc g0) (insG_nodup acc g0 h)

/-- length of a guarded `filterMap` is the length of the filter by the
guard. -/
theorem filterMap_len {α β : Type} (f : α → Option β) (p : α → Bool)
    (hfp : ∀ a, (f a).isSome = p a) :
    ∀ l : List α, (l.filterMap f).length = (l.filter p).length := by
  intro l
  induction l with
  | nil => rfl
  | cons a rest ih =>
    cases hfa : f a with
    | none =>
      have hpa : p a = false := by rw [← hfp a, hfa]; rfl
      simp [List.filterMap_cons, List.filter_cons, hfa, hpa, ih]
    | some b =>
      have hpa : p a = true := by rw [← hfp a, hfa]; rfl
      simp [List.filterMap_cons, List.filter_cons, hfa, hpa, ih]

/-- splitting a filter along two mutually exclusive predicates. -/
theorem filter_or_disjoint {α : Type} (p q : α → Bool) :
    ∀ l : List α, (∀ a, a ∈ l → ¬(p a = true ∧ q a = true)) →
      (l.filter (fun a => p a || q a)).length =
        (l.filter p).length + (l.filter q).length := by
  intro l
  induction l with
  | nil => intro _; rfl
  | cons a rest ih =>
    intro hdisj
    have hrest : ∀ b, b ∈ rest → ¬(p b = true ∧ q b = true) :=
      fun b hb => hdisj b (List.mem_cons_of_mem _ hb)
    cases hpa : p a with
    | true =>
      have hqa : q a = false := by
        cases hqa : q a with
        | true => exact absurd ⟨hpa, hqa⟩ (hdisj a (List.mem_cons_self a rest))
        | false => rfl
      simp [List.filter_cons, hpa, hqa, ih hrest]
      omega
    | false =>
      cases hqa : q a with
      | true =>
        simp [List.filter_cons, hpa, hqa, ih hrest]
        omega
      | false =>
        simp [List.filter_cons, hpa, hqa, ih hrest]

/-- the cross-sensitivity group of the allergen a patient allergy points
at, `None` when the lookup fails or the allergen has no group. -/
def allergyGroup (db : Db) (a : PatientAllergyR) : Option String :=
  match findAllergen db a.allergen_id with
  | some al => al.cross_sensitivity_group
  | none => none

/-- summing per-group filter counts over a duplicate-free group list
counts each element whose group is in the list exactly once. -/
theorem sum_filter_nodup (grp : PatientAllergyR → Option String) :
    ∀ (gs : List String), gs.Nodup → ∀ (l : List PatientAllergyR),
      (gs.map (fun g => (l.filter (fun a => grp a == some g)).length)).sum =
        (l.filter (fun a =>
          match grp a with
          | some x => gs.contains x
          | none => false)).length := by
  intro gs
  induction gs with
  | nil =>
    intro _ l
    have h0 : ∀ a ∈ l, (match grp a with
        | some x => ([] : List String).contains x
        | none => false) = false := by
      intro a _
      cases grp a <;> rfl
    rw [List.filter_congr h0]
    simp
  | cons g gs ihg =>
    intro hnd l
    obtain ⟨hg_notin, hnd2⟩ := List.nodup_cons.mp hnd
    rw [List.map_cons, List.sum_cons, ihg hnd2 l]
    have hcongr : ∀ a ∈ l, (match grp a with
        | some x => (g :: gs).contains x
        | none => false) =
        ((grp a == some g) || (match grp a with
          | some x => gs.contains x
          | none => false)) := by
      intro a _
      cases hga : grp a with
      | none => rfl
      | some x =>
        cases hxg : (x == g) with
        | true =>
          have hx : x = g := by simpa using hxg
          simp [List.contains_cons, hx]
        | false =>
          have hx : ¬ x = g := by simpa using hxg
          simp [List.contains_cons, hx]
    have hdisj : ∀ a, a ∈ l →
        ¬((grp a == some g) = true ∧ (match grp a with
          | some x => gs.contains x
          | none => false) = true) := by
      rintro a _ ⟨h1, h2⟩
      have hga : grp a = some g := by simpa using h1
      rw [hga] at h2
      have : g ∈ gs := by simpa using h2
      exact hg_notin this
    rw [List.filter_congr hcongr, filter_or_disjoint _ _ l hdisj]

/-- length of one inner cross run, as a filter count. -/
theorem crossAllergiesPure_length (db : Db) (g : String)
    (l : List PatientAllergyR) :
    (crossAllergiesPure db g l).length =
      (l.filter (fun a => allergyGroup db a == some g)).length := by
  apply filterMap_len
  intro a
  unfold allergyGroup
  cases hal : findAllergen db a.allergen_id with
  | none => rfl
  | some al =>
    cases hb : (al.cross_sensitivity_group == some g) with
    | true => simp [hb]
    | false => simp [hb]

/-- the fault-free cross-sensitivity output counts exactly one finding per
patient allergy whose group lies in the drug-side group set. -/
theorem crossPure_length (db : Db) (allergies : List PatientAllergyR)
    (ids : List Nat) :
    (crossPure db allergies ids).length =
      (allergies.filter (fun a =>
        match allergyGroup db a with
        | some g => (idGroupsPure db ids []).contains g
        | none => false)).length := by
  unfold crossPure
  rw [List.length_flatten, List.map_map]
  have hmap : (((patientGroupsPure db allergies []).filter
        (fun g => (idGroupsPure db ids []).contains g)).map
      (List.length ∘ fun g => crossAllergiesPure db g allergies)) =
      ((patientGroupsPure db allergies []).filter
        (fun g => (idGroupsPure db ids []).contains g)).map
      (fun g => (allergies.filter (fun a => allergyGroup db a == some g)).length) :=
    List.map_congr_left (fun g _ => crossAllergiesPure_length db g allergies)
  rw [hmap]
  have hnodup : ((patientGroupsPure db allergies []).filter
      (fun g => (idGroupsPure db ids []).contains g)).Nodup :=
    (patientGroupsPure_nodup db allergies [] List.nodup_nil).filter _
  rw [sum_filter_nodup (allergyGroup db) _ hnodup allergies]
  have hfin : ∀ a ∈ allergies, (match allergyGroup db a with
      | some x => (((patientGroupsPure db allergies []).filter
          (fun g => (idGroupsPure db ids []).contains g)).contains x)
      | none => false) =
      (match allergyGroup db a with
       | some g => (idGroupsPure db ids []).contains g
       | none => false) := by
    intro a ha
    cases hga : allergyGroup db a with
    | none => rfl
    | some x =>
      show (((patientGroupsPure db allergies []).filter
        (fun g => (idGroupsPure db ids []).contains g)).contains x) =
        (idGroupsPure db ids []).contains x
      cases hdg : (idGroupsPure db ids []).contains x with
      | false =>
        cases hmem : (((patientGroupsPure db allergies []).filter
            (fun g => (idGroupsPure db ids []).contains g)).contains x) with
        | false => rfl
        | true =>
          exfalso
          have hx : x ∈ (patientGroupsPure db allergies []).filter
              (fun g => (idGroupsPure db ids []).contains g) := by simpa using hmem
          have := (List.mem_filter.mp hx).2
          rw [hdg] at this
          cases this
      | true =>
        have hx : x ∈ patientGroupsPure db allergies [] := by
          rw [patientGroupsPure_mem]
          refine Or.inr ⟨a, ha, ?_⟩
          unfold allergyGroup at hga
          cases hal : findAllergen db a.allergen_id with
          | none => rw [hal] at hga; cases hga
          | some al => exact ⟨al, rfl, by rw [hal] at hga; exact hga⟩
        have : x ∈ (patientGroupsPure db allergies []).filter
            (fun g => (idGroupsPure db ids []).contains g) :=
          List.mem_filter.mpr ⟨hx, hdg⟩
        simpa using this
  rw [List.filter_congr hfin]

/-- membership characterisation of the fault-free cross-sensitivity
output. -/
theorem crossPure_mem (db : Db) (allergies : List PatientAllergyR)
    (ids : List Nat) (c : Conflict) :
    c ∈ crossPure db allergies ids ↔
      ∃ a al g, a ∈ allergies ∧ findAllergen db a.allergen_id = some al ∧
        al.cross_sensitivity_group = some g ∧
        (idGroupsPure db ids []).contains g = true ∧
        c = mkCrossConflict al a g := by
  unfold crossPure
  rw [List.mem_flatten]
  constructor
  · rintro ⟨sub, hsub, hc⟩
    rw [List.mem_map] at hsub
    obtain ⟨g, hg, rfl⟩ := hsub
    rw [List.mem_filter] at hg
    obtain ⟨hgpg, hgdg⟩ := hg
    unfold crossAllergiesPure at hc
    rw [List.mem_filterMap] at hc
    obtain ⟨a, ha, hfa⟩ := hc
    cases hal : findAllergen db a.allergen_id with
    | none => rw [hal] at hfa; cases hfa
    | some al =>
      rw [hal] at hfa
      have hfa2 : (if (al.cross_sensitivity_group == some g) = true
          then some (mkCrossConflict al a g) else none) = some c := hfa
      cases hgr : (al.cross_sensitivity_group == some g) with
      | false => simp [hgr] at hfa2
      | true =>
        simp [hgr] at hfa2
        exact ⟨a, al, g, ha, hal, by simpa using hgr, hgdg, hfa2.symm⟩
  · rintro ⟨a, al, g, ha, hal, hgr, hdg, rfl⟩
    refine ⟨crossAllergiesPure db g allergies, ?_, ?_⟩
    · rw [List.mem_map]
      refine ⟨g, ?_, rfl⟩
      rw [List.mem_filter]
      refine ⟨?_, hdg⟩
      rw [patientGroupsPure_mem]
      exact Or.inr ⟨a, ha, al, hal, hgr⟩
    · unfold crossAllergiesPure
      rw [List.mem_filterMap]
      refine ⟨a, ha, ?_⟩
      rw [hal]
      simp [hgr]

/-- C4: the cross-sensitivity matcher emits exactly the findings given by
the group-intersection algorithm.  A conflict is in the output exactly
when some patient allergy resolves to an allergen with a group that also
occurs among the drug's mapped allergens' groups (the intersection with
the patient-side group set is implied by the witnessing allergy), and the
finding is `mkCrossConflict al a g`, which carries the patient's recorded
severity and reaction; allergens with no group never contribute.  The
output length equals the number of patient allergies whose group lies in
the drug-side group set: exactly one finding per qualifying allergy. -/
theorem C4_cross_sensitivity_algorithm :
    ∀ (db : Db) (allergies : List PatientAllergyR) (ids : List Nat),
      (∀ c, c ∈ check_cross_sensitivity (FDb.ofDb db) allergies ids ↔
        ∃ a al g, a ∈ allergies ∧ findAllergen db a.allergen_id = some al ∧
          al.cross_sensitivity_group = some g ∧
          (idGroupsPure db ids []).contains g = true ∧
          c = mkCrossConflict al a g) ∧
      (check_cross_sensitivity (FDb.ofDb db) allergies ids).length =
        (allergies.filter (fun a =>
          match allergyGroup db a with
          | some g => (idGroupsPure db ids []).contains g
          | none => false)).length := by
  intro db allergies ids
  rw [check_cross_ofDb]
  exact ⟨fun c => crossPure_mem db allergies ids c,
    crossPure_length db allergies ids⟩

theorem C4_cross_sensitivity_algorithm_witness :
    (check_cross_sensitivity (FDb.ofDb dbPeni) algPeni [1]).length =
      (algPeni.filter (fun a =>
        match allergyGroup dbPeni a with
        | some g => (idGroupsPure dbPeni [1] []).contains g
        | none => false)).length :=
  (C4_cross_sensitivity_algorithm dbPeni algPeni [1]).2

/-! ## C1 -/

/-- the severity vocabulary the classification claim speaks about. -/
def sevList : List String :=
  ["mild", "moderate", "unknown", "severe", "life_threatening"]

/-- a shorter suffix of a list is a suffix of any longer suffix. -/
theorem sfx_of_sfx {u v l : List Char} (hu : u <:+ l) (hv : v <:+ l)
    (hle : u.length ≤ v.length) : u <:+ v := by
  rw [← List.reverse_prefix] at hu hv ⊢
  exact List.prefix_of_prefix_length_le hu hv (by simpa using hle)

/-- appends with a strictly shorter, non-suffix right part differ. -/
theorem str_app_ne (x y u v : String) (hlen : u.data.length < v.data.length)
    (hnsfx : ¬ (u.data <:+ v.data)) : ¬ (x ++ u = y ++ v) := by
  intro h
  have hd : x.data ++ u.data = y.data ++ v.data := by
    have h2 := congrArg String.data h
    rw [strData_append, strData_append] at h2
    exact h2
  have hu : u.data <:+ x.data ++ u.data := List.suffix_append _ _
  have hv : v.data <:+ x.data ++ u.data := by
    rw [hd]; exact List.suffix_append _ _
  exact hnsfx (sfx_of_sfx hu hv (le_of_lt hlen))

/-- among the severity vocabulary, the severity is recoverable from the
dedup key: equal keys force equal severities. -/
theorem key_sev {s1 s2 : String} (h1 : s1 ∈ sevList) (h2 : s2 ∈ sevList)
    (x y : String) (h : x ++ s1 = y ++ s2) : s1 = s2 := by
  simp only [sevList, List.mem_cons, List.not_mem_nil, or_false] at h1 h2
  rcases h1 with rfl | rfl | rfl | rfl | rfl <;>
    rcases h2 with rfl | rfl | rfl | rfl | rfl <;>
      first
        | rfl
        | exact absurd h (str_app_ne _ _ _ _ (by decide) (by decide))
        | exact absurd h.symm (str_app_ne _ _ _ _ (by decide) (by decide))

/-- equal conflict keys of the same medicine force equal severities. -/
theorem conflictKey_sev_eq (m : String) (k c : Conflict)
    (hk : k.severity ∈ sevList) (hc : c.severity ∈ sevList)
    (h : conflictKey m k = conflictKey m c) : k.severity = c.severity :=
  key_sev hk hc (m ++ "_" ++ k.allergen_name ++ "_")
    (m ++ "_" ++ c.allergen_name ++ "_") h

/-- step equation: a conflict whose key is already taken is dropped. -/
theorem pc_step_dup (m : String) (k : Conflict) (rest : List Conflict)
    (st : CheckSt)
    (h : ((st.contraindications.map contraKey).contains (conflictKey m k) ||
      (st.warnings.map warnKey).contains (conflictKey m k)) = true) :
    processConflicts m (k :: rest) st = processConflicts m rest st := by
  conv_lhs => unfold processConflicts
  rw [if_pos h]

/-- step equation: a fresh severe conflict is appended to the
contraindications. -/
theorem pc_step_sev (m : String) (k : Conflict) (rest : List Conflict)
    (st : CheckSt)
    (h : ((st.contraindications.map contraKey).contains (conflictKey m k) ||
      (st.warnings.map warnKey).contains (conflictKey m k)) = false)
    (hsev : isSevere k.severity = true) :
    processConflicts m (k :: rest) st = processConflicts m rest
      { st with contraindications := st.contraindications ++ [mkContra m k] } := by
  conv_lhs => unfold processConflicts
  rw [if_neg (by rw [h]; exact Bool.false_ne_true), if_pos hsev]

/-- step equation: a fresh non-severe conflict is appended to the
warnings. -/
theorem pc_step_warn (m : String) (k : Conflict) (rest : List Conflict)
    (st : CheckSt)
    (h : ((st.contraindications.map contraKey).contains (conflictKey m k) ||
      (st.warnings.map warnKey).contains (conflictKey m k)) = false)
    (hsev : isSevere k.severity = false) :
    processConflicts m (k :: rest) st = processConflicts m rest
      { st with warnings := st.warnings ++ [mkWarn m k] } := by
  conv_lhs => unfold processConflicts
  rw [if_neg (by rw [h]; exact Bool.false_ne_true)]
  rw [if_neg (by rw [hsev]; exact Bool.false_ne_true)]

/-- the classification loop only appends to both result lists. -/
theorem pc_mono (m : String) : ∀ (l : List Conflict) (st : CheckSt),
    st.contraindications <+: (processConflicts m l st).contraindications ∧
    st.warnings <+: (processConflicts m l st).warnings := by
  intro l
  induction l with
  | nil => intro st; exact ⟨List.prefix_refl _, List.prefix_refl _⟩
  | cons k rest ih =>
    intro st
    cases hdup : ((st.contraindications.map contraKey).contains (conflictKey m k) ||
        (st.warnings.map warnKey).contains (conflictKey m k)) with
    | true =>
      rw [pc_step_dup m k rest st hdup]
      exact ih st
    | false =>
      cases hsev : isSevere k.severity with
      | true =>
        rw [pc_step_sev m k rest st hdup hsev]
        obtain ⟨h1, h2⟩ := ih
          { st with contraindications := st.contraindications ++ [mkContra m k] }
        exact ⟨(List.prefix_append st.contraindications [mkContra m k]).trans h1, h2⟩
      | false =>
        rw [pc_step_warn m k rest st hdup hsev]
        obtain ⟨h1, h2⟩ := ih
          { st with warnings := st.warnings ++ [mkWarn m k] }
        exact ⟨h1, (List.prefix_append st.warnings [mkWarn m k]).trans h2⟩

/-- soundness: every contraindication after the loop was already there or
comes from a severe conflict of the list. -/
theorem pc_sound_contra (m : String) : ∀ (l : List Conflict) (st : CheckSt),
    ∀ c ∈ (processConflicts m l st).contraindications,
      c ∈ st.contraindications ∨
        ∃ k, k ∈ l ∧ c = mkContra m k ∧ isSevere k.severity = true := by
  intro l
  induction l with
  | nil => intro st c hc; exact Or.inl hc
  | cons k rest ih =>
    intro st c hc
    cases hdup : ((st.contraindications.map contraKey).contains (conflictKey m k) ||
        (st.warnings.map warnKey).contains (conflictKey m k)) with
    | true =>
      rw [pc_step_dup m k rest st hdup] at hc
      rcases ih st c hc with h | ⟨k2, hk2, he, hs⟩
      · exact Or.inl h
      · exact Or.inr ⟨k2, List.mem_cons_of_mem _ hk2, he, hs⟩
    | false =>
      cases hsev : isSevere k.severity with
      | true =>
        rw [pc_step_sev m k rest st hdup hsev] at hc
        rcases ih _ c hc with h | ⟨k2, hk2, he, hs⟩
        · rcases List.mem_append.mp h with h2 | h2
          · exact Or.inl h2
          · rcases List.mem_singleton.mp h2 with rfl
            exact Or.inr ⟨k, List.mem_cons_self k rest, rfl, hsev⟩
        · exact Or.inr ⟨k2, List.mem_cons_of_mem _ hk2, he, hs⟩
      | false =>
        rw [pc_step_warn m k rest st hdup hsev] at hc
        rcases ih _ c hc with h | ⟨k2, hk2, he, hs⟩
        · exact Or.inl h
        · exact Or.inr ⟨k2, List.mem_cons_of_mem _ hk2, he, hs⟩

/-- soundness: every warning after the loop was already there or comes
from a non-severe conflict of the list. -/
theorem pc_sound_warn (m : String) : ∀ (l : List Conflict) (st : CheckSt),
    ∀ w ∈ (processConflicts m l st).warnings,
      w ∈ st.warnings ∨
        ∃ k, k ∈ l ∧ w = mkWarn m k ∧ isSevere k.severity = false := by
  intro l
  induction l with
  | nil => intro st w hw; exact Or.inl hw
  | cons k rest ih =>
    intro st w hw
    cases hdup : ((st.contraindications.map contraKey).contains (conflictKey m k) ||
        (st.warnings.map warnKey).contains (conflictKey m k)) with
    | true =>
      rw [pc_step_dup m k rest st hdup] at hw
      rcases ih st w hw with h | ⟨k2, hk2, he, hs⟩
      · exact Or.inl h
      · exact Or.inr ⟨k2, List.mem_cons_of_mem _ hk2, he, hs⟩
    | false =>
      cases hsev : isSevere k.severity with
      | true =>
        rw [pc_step_sev m k rest st hdup hsev] at hw
        rcases ih _ w hw with h | ⟨k2, hk2, he, hs⟩
        · exact Or.inl h
        · exact Or.inr ⟨k2, List.mem_cons_of_mem _ hk2, he, hs⟩
      | false =>
        rw [pc_step_warn m k rest st hdup hsev] at hw
        rcases ih _ w hw with h | ⟨k2, hk2, he, hs⟩
        · rcases List.mem_append.mp h with h2 | h2
          · exact Or.inl h2
          · rcases List.mem_singleton.mp h2 with rfl
            exact Or.inr ⟨k, List.mem_cons_self k rest, rfl, hsev⟩
        · exact Or.inr ⟨k2, List.mem_cons_of_mem _ hk2, he, hs⟩

/-- occupied keys after appending a contraindication. -/
theorem allKeys_append_contra (st : CheckSt) (x : ContraindicationItem)
    (key : String) :
    key ∈ allKeysL { st with contraindications := st.contraindications ++ [x] } ↔
      key = contraKey x ∨ key ∈ allKeysL st := by
  unfold allKeysL
  simp only [List.map_append, List.map_cons, List.map_nil, List.mem_append,
    List.mem_singleton]
  tauto

/-- occupied keys after appending a warning. -/
theorem allKeys_append_warn (st : CheckSt) (x : WarningItem) (key : String) :
    key ∈ allKeysL { st with warnings := st.warnings ++ [x] } ↔
      key = warnKey x ∨ key ∈ allKeysL st := by
  unfold allKeysL
  simp only [List.map_append, List.map_cons, List.map_nil, List.mem_append,
    List.mem_singleton]
  tauto

/-- placement: a severe conflict of the list ends with its key among the
contraindication keys, unless its key was already occupied beforehand. -/
theorem pc_place_sev (m : String) : ∀ (l : List Conflict) (st : CheckSt),
    (∀ k0 ∈ l, k0.severity ∈ sevList) →
    ∀ k ∈ l, isSevere k.severity = true →
      conflictKey m k ∈ (processConflicts m l st).contraindications.map contraKey ∨
      conflictKey m k ∈ allKeysL st := by
  intro l
  induction l with
  | nil => intro st _ k hk; cases hk
  | cons c rest ih =>
    intro st hval k hk hsev
    have hvalrest : ∀ k0 ∈ rest, k0.severity ∈ sevList :=
      fun k0 h0 => hval k0 (List.mem_cons_of_mem _ h0)
    cases hdup : ((st.contraindications.map contraKey).contains (conflictKey m c) ||
        (st.warnings.map warnKey).contains (conflictKey m c)) with
    | true =>
      rw [pc_step_dup m c rest st hdup]
      rcases List.mem_cons.mp hk with rfl | hkr
      · refine Or.inr ?_
        have hd2 := hdup
        simp only [Bool.or_eq_true] at hd2
        rcases hd2 with h | h
        · exact List.mem_append.mpr (Or.inl (by simpa using h))
        · exact List.mem_append.mpr (Or.inr (by simpa using h))
      · exact ih st hvalrest k hkr hsev
    | false =>
      cases hsevc : isSevere c.severity with
      | true =>
        rw [pc_step_sev m c rest st hdup hsevc]
        have hkc : contraKey (mkContra m c) = conflictKey m c := rfl
        have hkey_in :
            conflictKey m c ∈ ({ st with contraindications :=
              st.contraindications ++ [mkContra m c] } : CheckSt).contraindications.map
                contraKey :=
          List.mem_map.mpr ⟨mkContra m c, by simp, hkc⟩
        have hsub := ((pc_mono m rest { st with contraindications :=
          st.contraindications ++ [mkContra m c] }).1).map contraKey
        rcases List.mem_cons.mp hk with rfl | hkr
        · exact Or.inl (hsub.sublist.subset hkey_in)
        · rcases ih { st with contraindications :=
            st.contraindications ++ [mkContra m c] } hvalrest k hkr hsev with h | h
          · exact Or.inl h
          · rcases (allKeys_append_contra st (mkContra m c) _).mp h with hkeq | hin
            · refine Or.inl (hsub.sublist.subset ?_)
              rw [hkeq, hkc]
              exact hkey_in
            · exact Or.inr hin
      | false =>
        rw [pc_step_warn m c rest st hdup hsevc]
        rcases List.mem_cons.mp hk with rfl | hkr
        · rw [hsevc] at hsev; cases hsev
        · rcases ih { st with warnings := st.warnings ++ [mkWarn m c] }
            hvalrest k hkr hsev with h | h
          · exact Or.inl h
          · rcases (allKeys_append_warn st (mkWarn m c) _).mp h with hkeq | hin
            · have hkw : warnKey (mkWarn m c) = conflictKey m c := rfl
              have hkeq2 : conflictKey m k = conflictKey m c := by rw [hkeq, hkw]
              have hseveq : k.severity = c.severity :=
                conflictKey_sev_eq m k c (hval k hk)
                  (hval c (List.mem_cons_self c rest)) hkeq2
              exact absurd hsev (by rw [hseveq, hsevc]; exact Bool.false_ne_true)
            · exact Or.inr hin

/-- placement: a non-severe conflict of the list ends with its key among
the warning keys, unless its key was already occupied beforehand. -/
theorem pc_place_warn (m : String) : ∀ (l : List Conflict) (st : CheckSt),
    (∀ k0 ∈ l, k0.severity ∈ sevList) →
    ∀ k ∈ l, isSevere k.severity = false →
      conflictKey m k ∈ (processConflicts m l st).warnings.map warnKey ∨
      conflictKey m k ∈ allKeysL st := by
  intro l
  induction l with
  | nil => intro st _ k hk; cases hk
  | cons c rest ih =>
    intro st hval k hk hsev
    have hvalrest : ∀ k0 ∈ rest, k0.severity ∈ sevList :=
      fun k0 h0 => hval k0 (List.mem_cons_of_mem _ h0)
    cases hdup : ((st.contraindications.map contraKey).contains (conflictKey m c) ||
        (st.warnings.map warnKey).contains (conflictKey m c)) with
    | true =>
      rw [pc_step_dup m c rest st hdup]
      rcases List.mem_cons.mp hk with rfl | hkr
      · refine Or.inr ?_
        have hd2 := hdup
        simp only [Bool.or_eq_true] at hd2
        rcases hd2 with h | h
        · exact List.mem_append.mpr (Or.inl (by simpa using h))
        · exact List.mem_append.mpr (Or.inr (by simpa using h))
      · exact ih st hvalrest k hkr hsev
    | false =>
      cases hsevc : isSevere c.severity with
      | false =>
        rw [pc_step_warn m c rest st hdup hsevc]
        have hkw : warnKey (mkWarn m c) = conflictKey m c := rfl
        have hkey_in :
            conflictKey m c ∈ ({ st with warnings :=
              st.warnings ++ [mkWarn m c] } : CheckSt).warnings.map warnKey :=
          List.mem_map.mpr ⟨mkWarn m c, by simp, hkw⟩
        have hsub := ((pc_mono m rest { st with warnings :=
          st.warnings ++ [mkWarn m c] }).2).map warnKey
        rcases List.mem_cons.mp hk with rfl | hkr
        · exact Or.inl (hsub.sublist.subset hkey_in)
        · rcases ih { st with warnings := st.warnings ++ [mkWarn m c] }
            hvalrest k hkr hsev with h | h
          · exact Or.inl h
          · rcases (allKeys_append_warn st (mkWarn m c) _).mp h with hkeq | hin
            · refine Or.inl (hsub.sublist.subset ?_)
              rw [hkeq, hkw]
              exact hkey_in
            · exact Or.inr hin
      | true =>
        rw [pc_step_sev m c rest st hdup hsevc]
        rcases List.mem_cons.mp hk with rfl | hkr
        · rw [hsevc] at hsev; cases hsev
        · rcases ih { st with contraindications :=
            st.contraindications ++ [mkContra m c] } hvalrest k hkr hsev with h | h
          · exact Or.inl h
          · rcases (allKeys_append_contra st (mkContra m c) _).mp h with hkeq | hin
            · have hkc : contraKey (mkContra m c) = conflictKey m c := rfl
              have hkeq2 : conflictKey m k = conflictKey m c := by rw [hkeq, hkc]
              have hseveq : k.severity = c.severity :=
                conflictKey_sev_eq m k c (hval k hk)
                  (hval c (List.mem_cons_self c rest)) hkeq2
              rw [hseveq, hsevc] at hsev
              exact Bool.noConfusion hsev
            · exact Or.inr hin

/-- C1: classification of conflict findings is a pure function of
severity.  For every run of the classification loop over a conflict list
whose severities come from the severity vocabulary: (1) every new
contraindication comes from a conflict with severity severe or
life_threatening; (2) every new severity-carrying warning comes from a
conflict with any other severity; (3) every severe conflict ends with its
key among the contraindication keys unless its key was already occupied
before the loop (the deduplication of C2); (4) symmetrically for
non-severe conflicts and the warning keys. -/
theorem C1_severity_classification :
    ∀ (m : String) (l : List Conflict) (st : CheckSt),
      (∀ k ∈ l, k.severity ∈ sevList) →
      (∀ c ∈ (processConflicts m l st).contraindications,
        c ∈ st.contraindications ∨
          ∃ k, k ∈ l ∧ c = mkContra m k ∧ isSevere k.severity = true) ∧
      (∀ w ∈ (processConflicts m l st).warnings,
        w ∈ st.warnings ∨
          ∃ k, k ∈ l ∧ w = mkWarn m k ∧ isSevere k.severity = false) ∧
      (∀ k ∈ l, isSevere k.severity = true →
        conflictKey m k ∈
            (processConflicts m l st).contraindications.map contraKey ∨
          conflictKey m k ∈ allKeysL st) ∧
      (∀ k ∈ l, isSevere k.severity = false →
        conflictKey m k ∈ (processConflicts m l st).warnings.map warnKey ∨
          conflictKey m k ∈ allKeysL st) := by
  intro m l st hval
  exact ⟨pc_sound_contra m l st, pc_sound_warn m l st,
    pc_place_sev m l st hval, pc_place_warn m l st hval⟩

/-- a concrete severe direct-match finding. -/
def conflictPeni : Conflict :=
  ⟨1, "Penicillin", "active_ingredient", "severe", "hives", "direct",
    some "beta_lactam"⟩

theorem C1_severity_classification_witness :
    conflictKey "Amoxicillin" conflictPeni ∈
        (processConflicts "Amoxicillin" [conflictPeni]
          ⟨[], [], []⟩).contraindications.map contraKey ∨
      conflictKey "Amoxicillin" conflictPeni ∈ allKeysL ⟨[], [], []⟩ :=
  (C1_severity_classification "Amoxicillin" [conflictPeni] ⟨[], [], []⟩
    (by decide)).2.2.1 conflictPeni (by decide) (by decide)

/-! ## C2 -/

/-- C2 counterexample: the same medicine name occurring twice and not
resolving in the catalog yields two warnings with the identical
(medicine, allergen, severity) triple ("X", none, none) — the not-found
warnings are appended without any deduplication, so the triple appears
twice across the union of the two result lists. -/
theorem C2_counterexample_repeated_triple :
    (match check_prescription (FDb.ofDb dbEmpty) oracle0 "P" 1 [] ["X", "X"] with
     | .ok r => (unionTriples r).count ("X", none, none)
     | .error _ => 0) = 2 := by
  decide

/-- the dedup keys of the entries that carry an allergen: warnings with a
present allergen field, and all contraindications. -/
def carryKeys (st : CheckSt) : List String :=
  (st.warnings.filter (fun w => w.allergen.isSome)).map warnKey ++
    st.contraindications.map contraKey

/-- a carried key is one of the occupied keys. -/
theorem carry_mem_all (st : CheckSt) (key : String) (h : key ∈ carryKeys st) :
    key ∈ st.contraindications.map contraKey ∨ key ∈ st.warnings.map warnKey := by
  rcases List.mem_append.mp h with h1 | h1
  · refine Or.inr ?_
    obtain ⟨w, hw, rfl⟩ := List.mem_map.mp h1
    exact List.mem_map.mpr ⟨w, (List.mem_filter.mp hw).1, rfl⟩
  · exact Or.inl h1

/-- inserting a fresh element at the end of the right part keeps the
append duplicate-free. -/
theorem nodup_ins_right {A B : List String} {x : String}
    (h : (A ++ B).Nodup) (hx : ¬ x ∈ A ++ B) : (A ++ (B ++ [x])).Nodup := by
  have he : A ++ (B ++ [x]) = (A ++ B) ++ [x] := by rw [List.append_assoc]
  rw [he]
  exact (List.perm_append_singleton x (A ++ B)).nodup_iff.mpr
    (List.nodup_cons.mpr ⟨hx, h⟩)

/-- inserting a fresh element at the end of the left part keeps the
append duplicate-free. -/
theorem nodup_ins_left {A B : List String} {x : String}
    (h : (A ++ B).Nodup) (hx : ¬ x ∈ A ++ B) : ((A ++ [x]) ++ B).Nodup := by
  have hperm : ((A ++ [x]) ++ B).Perm (x :: (A ++ B)) := by
    have h1 := (List.perm_append_singleton x A).append_right B
    rwa [List.cons_append] at h1
  exact hperm.nodup_iff.mpr (List.nodup_cons.mpr ⟨hx, h⟩)

/-- appending a fresh contraindication keeps the carried keys
duplicate-free. -/
theorem carry_nodup_contra (st : CheckSt) (x : ContraindicationItem)
    (h : (carryKeys st).Nodup) (hx : ¬ contraKey x ∈ carryKeys st) :
    (carryKeys { st with contraindications :=
      st.contraindications ++ [x] }).Nodup := by
  unfold carryKeys at h hx ⊢
  simp only [List.map_append, List.map_cons, List.map_nil]
  exact nodup_ins_right h hx

/-- appending a fresh allergen-carrying warning keeps the carried keys
duplicate-free. -/
theorem carry_nodup_warn (st : CheckSt) (x : WarningItem)
    (hsome : x.allergen.isSome = true)
    (h : (carryKeys st).Nodup) (hx : ¬ warnKey x ∈ carryKeys st) :
    (carryKeys { st with warnings := st.warnings ++ [x] }).Nodup := by
  unfold carryKeys at h hx ⊢
  rw [List.filter_append]
  have hfx : (List.filter (fun w => w.allergen.isSome) [x]) = [x] := by
    simp [List.filter_cons, hsome]
  rw [hfx, List.map_append, List.map_cons, List.map_nil]
  exact nodup_ins_left h hx

/-- appending a warning without an allergen leaves the carried keys
unchanged. -/
theorem carry_warnNone (st : CheckSt) (x : WarningItem)
    (hnone : x.allergen = none) :
    carryKeys { st with warnings := st.warnings ++ [x] } = carryKeys st := by
  unfold carryKeys
  rw [List.filter_append]
  have hfx : (List.filter (fun w => w.allergen.isSome) [x]) = [] := by
    simp [List.filter_cons, hnone]
  rw [hfx, List.append_nil]

/-- the classification loop keeps the carried keys duplicate-free. -/
theorem pc_carry_nodup (m : String) : ∀ (l : List Conflict) (st : CheckSt),
    (carryKeys st).Nodup → (carryKeys (processConflicts m l st)).Nodup := by
  intro l
  induction l with
  | nil => intro st h; exact h
  | cons k rest ih =>
    intro st h
    cases hdup : ((st.contraindications.map contraKey).contains (conflictKey m k) ||
        (st.warnings.map warnKey).contains (conflictKey m k)) with
    | true =>
      rw [pc_step_dup m k rest st hdup]
      exact ih st h
    | false =>
      have hnotin : ¬ conflictKey m k ∈ carryKeys st := by
        intro hc
        rcases carry_mem_all st _ hc with h1 | h1
        · have h2 : (st.contraindications.map contraKey).contains
              (conflictKey m k) = true := by simpa using h1
          rw [h2] at hdup
          cases hdup
        · have h2 : (st.warnings.map warnKey).contains
              (conflictKey m k) = true := by simpa using h1
          rw [h2, Bool.or_true] at hdup
          cases hdup
      cases hsev : isSevere k.severity with
      | true =>
        rw [pc_step_sev m k rest st hdup hsev]
        refine ih _ (carry_nodup_contra st (mkContra m k) h ?_)
        rw [show contraKey (mkContra m k) = conflictKey m k from rfl]
        exact hnotin
      | false =>
        rw [pc_step_warn m k rest st hdup hsev]
        refine ih _ (carry_nodup_warn st (mkWarn m k) rfl h ?_)
        rw [show warnKey (mkWarn m k) = conflictKey m k from rfl]
        exact hnotin

/-- one medicine step keeps the carried keys duplicate-free. -/
theorem checkMedicine_carry (fdb : FDb) (oracle : DrugR → CrossResult)
    (allergies : List PatientAllergyR) (name : String) (st st' : CheckSt)
    (h : checkMedicine fdb oracle allergies name st = .ok st')
    (hnd : (carryKeys st).Nodup) : (carryKeys st').Nodup := by
  simp only [checkMedicine] at h
  cases hfd : findDrugF fdb (cleanName name) with
  | error e => rw [hfd] at h; cases h
  | ok od =>
    rw [hfd] at h
    cases od with
    | none =>
      cases hq1 : (if 3 ≤ strLen (cleanName name)
          then fdb.startQ (strTake (cleanName name) 3) else .ok []) with
      | error e => rw [hq1] at h; cases h
      | ok pms =>
        rw [hq1] at h
        cases hq2 : fdb.substrQ (cleanName name) with
        | error e => rw [hq2] at h; cases h
        | ok sms =>
          rw [hq2] at h
          cases h
          rw [carry_warnNone st _ rfl]
          exact hnd
    | some d =>
      have h2 : (if (check_direct_allergies fdb allergies d).isEmpty = true then
          (if ((oracle d).has_cross_reactivity.getD false) = true then
            (Except.ok { st with warnings :=
              st.warnings ++ [oracleWarning name (oracle d)] } : Except Unit CheckSt)
          else Except.ok { st with safe := st.safe ++ [name] })
        else Except.ok (processConflicts name
          (check_direct_allergies fdb allergies d) st)) = Except.ok st' := h
      cases hc : (check_direct_allergies fdb allergies d).isEmpty with
      | true =>
        rw [hc, if_pos rfl] at h2
        cases ho : ((oracle d).has_cross_reactivity.getD false) with
        | true =>
          rw [ho, if_pos rfl] at h2
          cases h2
          rw [carry_warnNone st _ rfl]
          exact hnd
        | false =>
          rw [ho, if_neg Bool.false_ne_true] at h2
          cases h2
          exact hnd
      | false =>
        rw [hc, if_neg Bool.false_ne_true] at h2
        cases h2
        exact pc_carry_nodup name _ st hnd

/-- the whole medicine loop keeps the carried keys duplicate-free. -/
theorem checkMedicines_carry (fdb : FDb) (oracle : DrugR → CrossResult)
    (allergies : List PatientAllergyR) : ∀ (meds : List String) (st st' : CheckSt),
    checkMedicines fdb oracle allergies meds st = .ok st' →
    (carryKeys st).Nodup → (carryKeys st').Nodup := by
  intro meds
  induction meds with
  | nil => intro st st' h hnd; cases h; exact hnd
  | cons mname rest ih =>
    intro st st' h hnd
    have hdef : checkMedicines fdb oracle allergies (mname :: rest) st =
        (match checkMedicine fdb oracle allergies mname st with
         | .error e => .error e
         | .ok st2 => checkMedicines fdb oracle allergies rest st2) := rfl
    rw [hdef] at h
    cases hcm : checkMedicine fdb oracle allergies mname st with
    | error e => rw [hcm] at h; cases h
    | ok st2 =>
      rw [hcm] at h
      exact ih st2 st' h
        (checkMedicine_carry fdb oracle allergies mname st st2 hcm hnd)

/-- a triple with both allergen and severity present is counted no more
often across the union than its key is counted among the carried keys. -/
theorem count_triple_le_carry (st : CheckSt) (m a s : String) :
    ((st.warnings.map wTriple ++ st.contraindications.map cTriple).count
      ((m, some a, some s) : String × Option String × Option String)) ≤
    (carryKeys st).count (m ++ "_" ++ a ++ "_" ++ s) := by
  unfold carryKeys
  rw [List.count_append, List.count_append]
  apply Nat.add_le_add
  · rw [List.count_eq_countP, List.countP_map, List.count_eq_countP,
      List.countP_map, List.countP_filter]
    apply List.countP_mono_left
    intro w hw hmatch
    have hwt : wTriple w = (m, some a, some s) := by
      simpa using hmatch
    have h3 : w.medicine = m ∧ w.allergen = some a ∧ w.severity = some s := by
      simpa [wTriple, Prod.ext_iff] using hwt
    simp [Function.comp, warnKey, h3.1, h3.2.1, h3.2.2, optStr]
  · rw [List.count_eq_countP, List.countP_map, List.count_eq_countP,
      List.countP_map]
    apply List.countP_mono_left
    intro c hc hmatch
    have hct : cTriple c = (m, some a, some s) := by
      simpa using hmatch
    have h3 : c.medicine = m ∧ c.allergen = a ∧ c.severity = s := by
      simpa [cTriple, Prod.ext_iff] using hct
    simp [Function.comp, contraKey, h3.1, h3.2.1, h3.2.2]

/-- state with one stored Penicillin contraindication. -/
def stOneContra : CheckSt :=
  ⟨[], [⟨"Amoxicillin", "Penicillin", "severe", "r"⟩], []⟩

/-- C2 (amended): the dedup key only protects findings produced by the
conflict matcher — for every successful prescription check, a
(medicine, allergen, severity) triple with both allergen and severity
present appears at most once across the union of warnings and
contraindications; and a conflict whose key is already occupied by an
earlier warning or contraindication is dropped entirely (the
first-classified occurrence keeps its slot, the duplicate is never moved
to the other bucket). Triples with missing fields (not-found and oracle
warnings, allergen = none) are appended with no deduplication. -/
theorem C2_dedup_first_wins :
    (∀ (fdb : FDb) (oracle : DrugR → CrossResult) (pname : String) (pid : Nat)
        (allergies : List PatientAllergyR) (medicines : List String)
        (r : PrescriptionResponse),
        check_prescription fdb oracle pname pid allergies medicines =
          Except.ok r →
        ∀ (m a s : String),
          (unionTriples r).count (m, some a, some s) ≤ 1) ∧
    (∀ (m : String) (k : Conflict) (rest : List Conflict) (st : CheckSt),
        ((st.contraindications.map contraKey).contains (conflictKey m k) ||
          (st.warnings.map warnKey).contains (conflictKey m k)) = true →
        processConflicts m (k :: rest) st = processConflicts m rest st) := by
  constructor
  · intro fdb oracle pname pid allergies medicines r h m a s
    unfold check_prescription at h
    cases hcm : checkMedicines fdb oracle allergies medicines ⟨[], [], []⟩ with
    | error e => rw [hcm] at h; cases h
    | ok st =>
      rw [hcm] at h
      cases h
      have hnd : (carryKeys st).Nodup :=
        checkMedicines_carry fdb oracle allergies medicines ⟨[], [], []⟩ st
          hcm List.nodup_nil
      calc ((st.warnings.map wTriple ++ st.contraindications.map cTriple).count
              ((m, some a, some s) : String × Option String × Option String))
          ≤ (carryKeys st).count (m ++ "_" ++ a ++ "_" ++ s) :=
            count_triple_le_carry st m a s
        _ ≤ 1 := List.nodup_iff_count_le_one.mp hnd _
  · intro m k rest st hocc
    exact pc_step_dup m k rest st hocc

theorem C2_dedup_first_wins_witness :
    (unionTriples respTwoUnknown).count
        (("X", some "a", some "s") : String × Option String × Option String) ≤ 1 ∧
      processConflicts "Amoxicillin" [conflictPeni] stOneContra =
        processConflicts "Amoxicillin" [] stOneContra :=
  ⟨C2_dedup_first_wins.1 (FDb.ofDb dbEmpty) oracle0 "P" 1 [] ["X", "X"]
      respTwoUnknown rfl "X" "a" "s",
    C2_dedup_first_wins.2 "Amoxicillin" conflictPeni [] stOneContra (by decide)⟩
